import Mathlib

/-!
Verification development for the MonStim_Analysis EMG analysis core.

This file gives a shallow embedding, in Lean 4, of the parts of
`monstim_analysis/Transform_EMG.py` and `monstim_analysis/Analyze_EMG.py`
that the frozen claims are about, and proves or refutes each claim.

Modelling conventions:
* Python floats are modelled by exact rationals (`ℚ`).  Comparisons such as
  `np.std(window) < threshold` are modelled exactly: for a nonempty window and
  a threshold `t`, `std < t` holds iff `0 < t` and `variance < t ^ 2` (the
  population variance, `ddof = 0`, as numpy computes).  `np.std([]) < t` is
  `NaN < t`, which is false in Python; the model returns `false` for the
  empty window as well.
* `np.mean` of an empty array is NaN in Python.  The total function `meanQ`
  returns `0` on `[]`; every theorem whose Python execution would hit such a
  NaN carries an explicit nonemptiness hypothesis instead.
* External library functions (scipy Butterworth filtering, `math`/numpy
  `sqrt`) that the claims do not constrain numerically are taken as explicit
  function parameters of the affected definitions.
* `scipy.signal.savgol_filter` is modelled by `scipySavgol`: an exact
  least-squares Savitzky-Golay filter (degree-`p` polynomial fit of each
  sliding window via the normal equations, solved by Cramer over `ℚ`, with
  the "interp" edge treatment: the first and last half-windows are replaced
  by evaluations of the polynomial fitted to the first/last full window).
  For window length 1 and polynomial order 0 - the regime every concrete
  evaluation below lives in - this is, exactly as in scipy, the identity.
-/

/-! ## Basic numeric helpers (exact models of the numpy primitives used) -/

/-- `np.mean` over exact rationals: sum divided by length.
Python returns NaN on an empty array; this total model returns `0` there and
theorems add nonemptiness hypotheses wherever the empty case could occur. -/
def meanQ (l : List ℚ) : ℚ := l.sum / l.length

/-- Population variance (`ddof = 0`), i.e. the square of `np.std`. -/
def varQ (l : List ℚ) : ℚ := meanQ (l.map (fun v => (v - meanQ l) ^ 2))

/-- Python `max(xs)` / `np.max(xs)` on a list of rationals (junk value `0` on
`[]`, where Python raises; theorems only use it on nonempty lists). -/
def maxD : List ℚ → ℚ
  | [] => 0
  | a :: t => t.foldl max a

/-- Python `min(xs)` / `np.min(xs)` (junk value `0` on `[]`). -/
def minD : List ℚ → ℚ
  | [] => 0
  | a :: t => t.foldl min a

/-- Python `int(q)` on a float: truncation toward zero. -/
def pyInt (q : ℚ) : ℤ := q.num / (q.den : ℤ)

/-- Python list/array slicing `l[a:b]` (step 1) with full negative-index
normalisation semantics. -/
def pySlice (l : List ℚ) (a b : ℤ) : List ℚ :=
  let n : ℤ := l.length
  let lo : ℤ := if a < 0 then max (n + a) 0 else min a n
  let hi : ℤ := if b < 0 then max (n + b) 0 else min b n
  (l.drop lo.toNat).take (hi.toNat - lo.toNat)

/-! ## Exact least-squares machinery for the Savitzky-Golay model

`numpy.polyfit` (degree `p`, here `p ≤ 3`) is the least-squares polynomial
fit; over `ℚ` it is computed exactly from the normal equations
`(Aᵀ A) c = Aᵀ y`, solved by Cramer's rule. -/

/-- Laplace expansion along the first row, structurally recursive on a fuel
argument (the row count) so that it reduces inside the kernel. -/
def detQAux : ℕ → List (List ℚ) → ℚ
  | 0, _ => 1
  | _, [] => 1
  | fuel + 1, r :: rs =>
    ((List.range r.length).map
      (fun j => (-1 : ℚ) ^ j * r.getD j 0 *
        detQAux fuel (rs.map (fun row => row.eraseIdx j)))).sum

/-- Determinant of a small square matrix given as a list of rows. -/
def detQ (m : List (List ℚ)) : ℚ := detQAux m.length m

/-- Replace column `k` of a matrix by the vector `b` (for Cramer's rule). -/
def replaceCol (m : List (List ℚ)) (k : ℕ) (b : List ℚ) : List (List ℚ) :=
  (m.zip b).map (fun rb => rb.1.set k rb.2)

/-- Solve the square linear system `m · z = b` by Cramer's rule (total; the
uses below always have `m` invertible). -/
def cramerSolve (m : List (List ℚ)) (b : List ℚ) : List ℚ :=
  (List.range m.length).map (fun k => detQ (replaceCol m k b) / detQ m)

/-- Exact least-squares fit of a degree-`p` polynomial to the points
`(j, ys_j)`, `j = 0, 1, ...`: the coefficient list `[c₀, c₁, ..., c_p]`
solving the normal equations. -/
def polyfitQ (p : ℕ) (ys : List ℚ) : List ℚ :=
  let n := ys.length
  let m := (List.range (p + 1)).map (fun a =>
    (List.range (p + 1)).map (fun b =>
      ((List.range n).map (fun j => (j : ℚ) ^ (a + b))).sum))
  let rhs := (List.range (p + 1)).map (fun a =>
    ((List.range n).map (fun (j : ℕ) => (j : ℚ) ^ a * ys.getD j 0)).sum)
  cramerSolve m rhs

/-- Evaluate a polynomial given by its coefficient list `[c₀, c₁, ...]`. -/
def evalPoly (cs : List ℚ) (x : ℚ) : ℚ :=
  cs.foldr (fun c acc => c + x * acc) 0

/-- Contiguous window `l[i : i+w]` of a list. -/
def winSlice (l : List ℚ) (i w : ℕ) : List ℚ := (l.drop i).take w

/-- Exact model of `scipy.signal.savgol_filter(y, wl, p)` (`deriv = 0`,
`delta = 1`, default `mode="interp"`): each interior output sample is the
degree-`p` least-squares fit of the length-`wl` window around it, evaluated
at the window centre `(wl - 1) / 2` (a half-integer for even `wl`, matching
scipy's `pos = halflen - 0.5`); the first and last `wl / 2` samples are
evaluations of the polynomial fitted to the first and last full window. -/
def scipySavgol (wl p : ℕ) (y : List ℚ) : List ℚ :=
  let n := y.length
  let halflen := wl / 2
  let firstFit := polyfitQ p (winSlice y 0 wl)
  let lastFit := polyfitQ p (winSlice y (n - wl) wl)
  (List.range n).map (fun i =>
    if i < halflen then
      evalPoly firstFit i
    else if n - halflen ≤ i then
      evalPoly lastFit ((i : ℚ) - ((n : ℚ) - (wl : ℚ)))
    else
      evalPoly (polyfitQ p (winSlice y (i - halflen) wl)) (((wl : ℚ) - 1) / 2))

/-- `savgol_filter_y` from `Transform_EMG.py`:
`window_length = int((len(y) / 100) * 25)` (i.e. `len(y) * 25 / 100` with
truncation, computed here in exact arithmetic) and
`polyorder = min(3, window_length - 1)`.  (For `len(y) ≤ 3` the Python call
raises inside scipy because the window length is 0; theorems that depend on
this function reaching a result carry a `4 ≤ len(y)` hypothesis.) -/
def savgol_filter_y (y : List ℚ) : List ℚ :=
  let wl := y.length * 25 / 100
  scipySavgol wl (min 3 (wl - 1)) y

theorem length_scipySavgol (wl p : ℕ) (y : List ℚ) :
    (scipySavgol wl p y).length = y.length := by
  simp [scipySavgol]

theorem length_savgol_filter_y (y : List ℚ) :
    (savgol_filter_y y).length = y.length := by
  simp [savgol_filter_y, length_scipySavgol]

/-! ## Plateau detection (`detect_plateau` in `Transform_EMG.py`) -/

/-- `np.std(window) < threshold`, exactly: false for the empty window (NaN
comparison), otherwise `0 < t` and `variance < t ^ 2`. -/
def stdBelow (w : List ℚ) (t : ℚ) : Bool :=
  !w.isEmpty && decide (0 < t) && decide (varQ w < t ^ 2)

/-- One iteration of the `for i in range(len(y_filtered) - max_window_size)`
loop of `detect_plateau`: a window below threshold starts a run (or extends
the current one, moving the run's end to `i + w`); a window at or above the
threshold resets both indices to `None`. -/
def plateauStep (yf : List ℚ) (w : ℕ) (t : ℚ) (acc : Option (ℕ × ℕ)) (i : ℕ) :
    Option (ℕ × ℕ) :=
  if stdBelow (winSlice yf i w) t then
    match acc with
    | none => some (i, i + w)
    | some (s, _) => some (s, i + w)
  else none

/-- The full window scan of `detect_plateau` at a fixed window size `w`:
the loop body above folded over `i = 0, ..., len(y_filtered) - w - 1`,
returning the surviving `(plateau_start_idx, plateau_end_idx)` pair. -/
def plateauScan (yf : List ℚ) (w : ℕ) (t : ℚ) : Option (ℕ × ℕ) :=
  (List.range (yf.length - w)).foldl (plateauStep yf w t) none

/-- The recursive window-shrinking search of `detect_plateau`, structurally
recursive in the current window size: scan at size `w`; on failure retry at
`w - 1` while `w > min_window_size`.  (The Python code re-smooths `y` at
every recursive call with identical results; the smoothed curve is passed
down here once.) -/
def detectPlateauGo (yf : List ℚ) (minw : ℕ) (t : ℚ) : ℕ → Option (ℕ × ℕ)
  | 0 => plateauScan yf 0 t
  | w + 1 =>
    match plateauScan yf (w + 1) t with
    | some r => some r
    | none => if minw < w + 1 then detectPlateauGo yf minw t w else none

/-- `detect_plateau(x, y, max_window_size, min_window_size, threshold)`.
The `x` argument is carried but unused, as in the source; `(None, None)` is
modelled as `none`. -/
def detect_plateau (x y : List ℚ) (maxWindowSize minWindowSize : ℕ) (t : ℚ) :
    Option (ℕ × ℕ) :=
  detectPlateauGo (savgol_filter_y y) minWindowSize t maxWindowSize

/-! ## M-max extraction (`get_avg_mmax` in `Transform_EMG.py`) -/

/-- Errors raised by the transform library.  `NoCalculableMmaxError` carries
its fixed default message; the `ValueError` for an unknown amplitude method
carries the offending method string and the list of valid method names -
exactly the data interpolated into the Python message
`Invalid method {method}. Must be one of {methods.keys()}`. -/
inductive TransformError where
  | noCalculableMmax : TransformError
  | invalidMethod (offending : String) (valid : List String) : TransformError
deriving DecidableEq, Repr

/-- `get_avg_mmax(stimulus_voltages, m_wave_amplitudes, max_window_size,
min_window_size, threshold)` with `return_mmax_stim_range=False` (the only
form the session code uses): mean of the raw amplitudes over the detected
plateau index range, plus the bias correction
`mean(y[y > m_max]) - mean(plateau[plateau < max(plateau)])` whenever that
mean is below the curve's global maximum; raises `NoCalculableMmaxError`
when no plateau was detected.  (When the plateau values are all equal and
below the global maximum, the Python correction takes `np.mean` of an empty
array and produces NaN; theorems about the corrected value therefore assume
that filtered array nonempty.) -/
def get_avg_mmax (stimulusVoltages mWaveAmplitudes : List ℚ)
    (maxWindowSize minWindowSize : ℕ) (t : ℚ) : Except TransformError ℚ :=
  match detect_plateau stimulusVoltages mWaveAmplitudes maxWindowSize minWindowSize t with
  | some (s, e) =>
    let plateauData := (mWaveAmplitudes.drop s).take (e - s)
    let mMax := meanQ plateauData
    if mMax < maxD mWaveAmplitudes then
      .ok (mMax + meanQ (mWaveAmplitudes.filter (fun a => decide (mMax < a)))
            - meanQ (plateauData.filter (fun a => decide (a < maxD plateauData))))
    else
      .ok mMax
  | none => .error .noCalculableMmax

/-! ## Amplitude extraction (`calculate_emg_amplitude` in `Transform_EMG.py`)

Each `_calculate_*` helper converts the `(start_ms, end_ms)` bounds to sample
indices with `int(t_ms * scan_rate / 1000)` and slices the signal.  `np.sqrt`
(for the RMS method) is an external numeric routine and is taken as a
function parameter `sqrtFn`. -/

def _calculate_average_amplitude_rectified (emg : List ℚ) (startMs endMs scanRate : ℚ) : ℚ :=
  meanQ ((pySlice emg (pyInt (startMs * scanRate / 1000))
    (pyInt (endMs * scanRate / 1000))).map (fun v => |v|))

def _calculate_peak_to_trough_amplitude (emg : List ℚ) (startMs endMs scanRate : ℚ) : ℚ :=
  let w := pySlice emg (pyInt (startMs * scanRate / 1000)) (pyInt (endMs * scanRate / 1000))
  maxD w - minD w

def _calculate_rms_amplitude (sqrtFn : ℚ → ℚ) (emg : List ℚ) (startMs endMs scanRate : ℚ) : ℚ :=
  sqrtFn (meanQ ((pySlice emg (pyInt (startMs * scanRate / 1000))
    (pyInt (endMs * scanRate / 1000))).map (fun v => v ^ 2)))

def _calculate_average_amplitude_unrectified (emg : List ℚ) (startMs endMs scanRate : ℚ) : ℚ :=
  meanQ (pySlice emg (pyInt (startMs * scanRate / 1000)) (pyInt (endMs * scanRate / 1000)))

/-- The keys of the `methods` dictionary of `calculate_emg_amplitude`, in
insertion order (the order interpolated into the error message). -/
def validMethods : List String :=
  ["average_rectified", "peak_to_trough", "rms", "average_unrectified"]

/-- `calculate_emg_amplitude(emg_data, start_ms, end_ms, scan_rate, method)`:
dictionary dispatch on the method name; an unknown name raises
`ValueError(f"Invalid method {method}. Must be one of {methods.keys()}")`,
modelled as a structured error carrying exactly the interpolated data. -/
def calculate_emg_amplitude (sqrtFn : ℚ → ℚ) (emg : List ℚ)
    (startMs endMs scanRate : ℚ) (method : String) : Except TransformError ℚ :=
  if method = "average_rectified" then
    .ok (_calculate_average_amplitude_rectified emg startMs endMs scanRate)
  else if method = "peak_to_trough" then
    .ok (_calculate_peak_to_trough_amplitude emg startMs endMs scanRate)
  else if method = "rms" then
    .ok (_calculate_rms_amplitude sqrtFn emg startMs endMs scanRate)
  else if method = "average_unrectified" then
    .ok (_calculate_average_amplitude_unrectified emg startMs endMs scanRate)
  else
    .error (.invalidMethod method validMethods)

/-! ## Helper lemmas: the Savitzky-Golay model at window length 1

`scipy.signal.savgol_filter` with `window_length = 1`, `polyorder = 0` fits
a constant through each single sample: it is the identity.  The model
provably has the same property, which lets the concrete witnesses below
(all of curve length 4-7, where `int((len(y)/100)*25) = 1`) evaluate the
smoothing step exactly. -/

theorem polyfitQ_zero_single (a : ℚ) : polyfitQ 0 [a] = [a] := by
  simp [polyfitQ, cramerSolve, replaceCol, detQ, detQAux, List.range_succ]

theorem winSlice_one (y : List ℚ) (i : ℕ) (hi : i < y.length) :
    winSlice y i 1 = [y[i]] := by
  rw [winSlice, List.drop_eq_getElem_cons hi]
  rfl

theorem scipySavgol_one_zero (y : List ℚ) : scipySavgol 1 0 y = y := by
  apply List.ext_getElem
  · simp [scipySavgol]
  · intro i h1 h2
    simp only [scipySavgol, List.getElem_map, List.getElem_range]
    have hi : i < y.length := by simpa [scipySavgol] using h1
    have h12 : (1 : ℕ) / 2 = 0 := rfl
    rw [h12, if_neg (by omega), if_neg (by omega), Nat.sub_zero,
      winSlice_one y i hi, polyfitQ_zero_single]
    simp [evalPoly]

theorem savgol_filter_y_small (y : List ℚ) (h4 : 4 ≤ y.length) (h7 : y.length ≤ 7) :
    savgol_filter_y y = y := by
  have hwl : y.length * 25 / 100 = 1 := by
    interval_cases h : y.length <;> rfl
  rw [savgol_filter_y]
  simp only [hwl]
  exact scipySavgol_one_zero y

/-- Invariant of the `detect_plateau` window loop after `m` iterations: the
accumulator is `none` unless the window at the most recent start `m - 1` was
below threshold, in which case it holds the maximal run of below-threshold
starts ending at `m - 1`, with end index `(m - 1) + w`. -/
theorem plateauScan_invariant (yf : List ℚ) (w : ℕ) (t : ℚ) : ∀ m : ℕ,
    ((List.range m).foldl (plateauStep yf w t) none = none ∧
      (m = 0 ∨ stdBelow (winSlice yf (m - 1) w) t = false)) ∨
    (∃ s, (List.range m).foldl (plateauStep yf w t) none = some (s, (m - 1) + w) ∧
      s < m ∧
      (∀ i, s ≤ i → i < m → stdBelow (winSlice yf i w) t = true) ∧
      (s = 0 ∨ stdBelow (winSlice yf (s - 1) w) t = false)) := by
  intro m
  induction m with
  | zero => left; simp
  | succ m ih =>
    rw [List.range_succ, List.foldl_append]
    rcases ih with ⟨hnone, hm⟩ | ⟨s, hsome, hsm, hrun, hleft⟩
    · rw [hnone]
      by_cases hb : stdBelow (winSlice yf m w) t = true
      · right
        exact ⟨m, by simp [plateauStep, hb], by omega,
          fun i h1 h2 => by have : i = m := by omega
                            subst this; exact hb,
          by rcases hm with h | h
             · left; omega
             · right; simpa using h⟩
      · left
        constructor
        · simp only [List.foldl_cons, List.foldl_nil, plateauStep]
          rw [if_neg (by simpa using hb)]
        · right; simpa using by simpa using hb
    · rw [hsome]
      by_cases hb : stdBelow (winSlice yf m w) t = true
      · right
        refine ⟨s, by simp [plateauStep, hb], by omega, fun i h1 h2 => ?_, hleft⟩
        by_cases him : i < m
        · exact hrun i h1 him
        · have : i = m := by omega
          subst this; exact hb
      · left
        constructor
        · simp only [List.foldl_cons, List.foldl_nil, plateauStep]
          rw [if_neg (by simpa using hb)]
        · right; simpa using by simpa using hb

theorem plateauScan_eq_some (yf : List ℚ) (w : ℕ) (t : ℚ) (s e : ℕ)
    (h : plateauScan yf w t = some (s, e)) :
    s < yf.length - w ∧ e = yf.length - 1 ∧
    (∀ i, s ≤ i → i < yf.length - w → stdBelow (winSlice yf i w) t = true) ∧
    (s = 0 ∨ stdBelow (winSlice yf (s - 1) w) t = false) := by
  rcases plateauScan_invariant yf w t (yf.length - w) with ⟨hnone, _⟩ | ⟨s', hsome, hsm, hrun, hleft⟩
  · rw [plateauScan] at h; rw [hnone] at h; exact absurd h (by simp)
  · rw [plateauScan] at h; rw [hsome] at h
    obtain ⟨rfl, rfl⟩ : s' = s ∧ (yf.length - w - 1) + w = e := by
      simpa [Prod.ext_iff] using h
    exact ⟨hsm, by omega, hrun, hleft⟩

theorem plateauScan_eq_none (yf : List ℚ) (w : ℕ) (t : ℚ)
    (h : ∀ i, i < yf.length - w → stdBelow (winSlice yf i w) t = false) :
    plateauScan yf w t = none := by
  rcases plateauScan_invariant yf w t (yf.length - w) with ⟨hnone, _⟩ | ⟨s, hsome, hsm, hrun, _⟩
  · rw [plateauScan, hnone]
  · have := hrun s le_rfl hsm
    rw [h s hsm] at this
    exact absurd this (by simp)

theorem detectPlateauGo_eq_some (yf : List ℚ) (minw : ℕ) (t : ℚ) :
    ∀ w s e, detectPlateauGo yf minw t w = some (s, e) →
      ∃ u, u ≤ w ∧ plateauScan yf u t = some (s, e) := by
  intro w
  induction w with
  | zero => intro s e h; exact ⟨0, le_rfl, h⟩
  | succ w ih =>
    intro s e h
    rw [detectPlateauGo] at h
    rcases hscan : plateauScan yf (w + 1) t with _ | r
    · rw [hscan] at h
      simp only at h
      split at h
      · rcases ih s e h with ⟨u, hu, hus⟩
        exact ⟨u, by omega, hus⟩
      · exact absurd h (by simp)
    · rw [hscan] at h
      simp only at h
      exact ⟨w + 1, le_rfl, by rw [hscan, h]⟩

theorem detectPlateauGo_eq_none (yf : List ℚ) (minw : ℕ) (t : ℚ) :
    ∀ w, minw ≤ w → (∀ u, minw ≤ u → u ≤ w → plateauScan yf u t = none) →
      detectPlateauGo yf minw t w = none := by
  intro w
  induction w with
  | zero => intro hm h; exact h 0 hm le_rfl
  | succ w ih =>
    intro hm h
    rw [detectPlateauGo, h (w + 1) hm le_rfl]
    simp only
    split
    · exact ih (by omega) (fun u h1 h2 => h u h1 (by omega))
    · rfl

theorem detectPlateauGo_shrink (yf : List ℚ) (minw : ℕ) (t : ℚ) (w : ℕ)
    (hw : minw < w) (hscan : plateauScan yf w t = none) :
    detectPlateauGo yf minw t w = detectPlateauGo yf minw t (w - 1) := by
  rcases w with _ | w
  · omega
  · rw [detectPlateauGo, hscan]
    simp only [Nat.add_sub_cancel]
    rw [if_pos hw]

/-! ## Claim C1 -/

/-- The index range claim C1 says `detect_plateau` returns: the FIRST maximal
contiguous run, scanning the smoothed curve left to right, of window start
positions whose `w`-sized window has standard deviation below the threshold;
encoded as the code encodes a run, `(first start, last start + w)`.
This definition follows the claim's words, for comparison with the
source-translated `detect_plateau`. -/
def specFirstPlateau (yf : List ℚ) (w : ℕ) (t : ℚ) : Option (ℕ × ℕ) :=
  let starts := List.range (yf.length - w)
  match starts.find? (fun i => stdBelow (winSlice yf i w) t) with
  | none => none
  | some s =>
    let run := (starts.drop s).takeWhile (fun i => stdBelow (winSlice yf i w) t)
    some (s, s + run.length - 1 + w)

theorem plateauScanY7Eval :
    plateauScan (savgol_filter_y [0, 0, 10, 10, 10, 10, 10]) 2 1 = some (2, 6) := by
  have hs : savgol_filter_y [0, 0, 10, 10, 10, 10, 10] = [0, 0, 10, 10, 10, 10, 10] :=
    savgol_filter_y_small _ (by simp) (by simp)
  rw [hs]
  norm_num [plateauScan, plateauStep, stdBelow, winSlice, varQ, meanQ, List.range_succ]

theorem c1CurveEval :
    detect_plateau [] [0, 0, 10, 10, 10, 10, 10] 2 2 1 = some (2, 6) := by
  rw [detect_plateau, detectPlateauGo, plateauScanY7Eval]

theorem c1FirstRunEval :
    specFirstPlateau (savgol_filter_y [0, 0, 10, 10, 10, 10, 10]) 2 1 = some (0, 2) := by
  have hs : savgol_filter_y [0, 0, 10, 10, 10, 10, 10] = [0, 0, 10, 10, 10, 10, 10] :=
    savgol_filter_y_small _ (by simp) (by simp)
  rw [hs]
  norm_num [specFirstPlateau, stdBelow, winSlice, varQ, meanQ, List.range_succ,
    List.find?, List.takeWhile]

/-- C1, counterexample: on the curve `[0, 0, 10, 10, 10, 10, 10]` with window
size 2 and threshold 1 (the smoothing step is the identity here), the first
maximal below-threshold run is the single start `0`, i.e. the range `(0, 2)`;
`detect_plateau` instead returns `(2, 6)` - the loop resets its candidate on
every above-threshold window, so the surviving run is the LAST one. -/
theorem claim_C1_counterexample :
    detect_plateau [] [0, 0, 10, 10, 10, 10, 10] 2 2 1 = some (2, 6) ∧
    specFirstPlateau (savgol_filter_y [0, 0, 10, 10, 10, 10, 10]) 2 1 = some (0, 2) ∧
    detect_plateau [] [0, 0, 10, 10, 10, 10, 10] 2 2 1 ≠
      specFirstPlateau (savgol_filter_y [0, 0, 10, 10, 10, 10, 10]) 2 1 := by
  refine ⟨c1CurveEval, c1FirstRunEval, ?_⟩
  rw [c1CurveEval, c1FirstRunEval]
  simp

/-- C1, amended: when plateau detection succeeds, the returned range comes
from the scan at some window size `u ≤ max_window_size` and is the LAST
maximal contiguous run of below-threshold window start positions of the
smoothed curve - the run necessarily extends to the final scanned start
`len(y) - u - 1`, the returned end index is `len(y) - 1`, every start from
`s` to the final scanned start is below threshold, and `s` is the left edge
of that run (`s = 0` or the window at `s - 1` is not below threshold). -/
theorem claim_C1_amended (x y : List ℚ) (maxw minw : ℕ) (t : ℚ) (s e : ℕ)
    (h : detect_plateau x y maxw minw t = some (s, e)) :
    ∃ u, u ≤ maxw ∧ plateauScan (savgol_filter_y y) u t = some (s, e) ∧
      s < y.length - u ∧ e = y.length - 1 ∧
      (∀ i, s ≤ i → i < y.length - u →
        stdBelow (winSlice (savgol_filter_y y) i u) t = true) ∧
      (s = 0 ∨ stdBelow (winSlice (savgol_filter_y y) (s - 1) u) t = false) := by
  rcases detectPlateauGo_eq_some _ _ _ maxw s e h with ⟨u, hu, hscan⟩
  have hc := plateauScan_eq_some _ u t s e hscan
  rw [length_savgol_filter_y] at hc
  exact ⟨u, hu, hscan, hc.1, hc.2.1, hc.2.2.1, hc.2.2.2⟩

theorem claim_C1_amended_witness :
    detect_plateau [] [0, 0, 10, 10, 10, 10, 10] 2 2 1 = some (2, 6) ∧
    ∃ u, u ≤ 2 ∧ plateauScan (savgol_filter_y [0, 0, 10, 10, 10, 10, 10]) u 1 = some (2, 6) ∧
      2 < 7 - u ∧ 6 = 7 - 1 ∧
      (∀ i, 2 ≤ i → i < 7 - u →
        stdBelow (winSlice (savgol_filter_y [0, 0, 10, 10, 10, 10, 10]) i u) 1 = true) ∧
      (2 = 0 ∨ stdBelow (winSlice (savgol_filter_y [0, 0, 10, 10, 10, 10, 10]) (2 - 1) u) 1 = false) :=
  ⟨c1CurveEval, by
    have h := claim_C1_amended [] [0, 0, 10, 10, 10, 10, 10] 2 2 1 2 6 c1CurveEval
    simpa using h⟩

/-! ## Claim C10 -/

theorem winSlice_take_last (yf : List ℚ) (w i : ℕ) (hi : i < yf.length - w) :
    winSlice (yf.take (yf.length - 1)) i w = winSlice yf i w := by
  rw [winSlice, winSlice, List.drop_take, List.take_take]
  congr 1
  omega

/-- C10: only window start positions `0 ≤ i ≤ len(y) - w - 1` are examined by
the scan at window size `w`: every inspected window is a window of the curve
with its final sample removed, a successful scan has start
`s ≤ len(y) - w - 1` and end index exactly `len(y) - 1 < len(y)`, and when
every examined window is at or above threshold the scan fails - regardless
of the (never examined) window occupying the final `w` samples. -/
theorem claim_C10 (y : List ℚ) (w : ℕ) (t : ℚ) :
    (∀ i, i < y.length - w →
      winSlice (savgol_filter_y y) i w =
        winSlice ((savgol_filter_y y).take (y.length - 1)) i w) ∧
    (∀ s e, plateauScan (savgol_filter_y y) w t = some (s, e) →
      s ≤ y.length - w - 1 ∧ e = y.length - 1 ∧ e < y.length) ∧
    ((∀ i, i < y.length - w → stdBelow (winSlice (savgol_filter_y y) i w) t = false) →
      plateauScan (savgol_filter_y y) w t = none) := by
  refine ⟨?_, ?_, ?_⟩
  · intro i hi
    have hl : y.length - 1 = (savgol_filter_y y).length - 1 := by
      rw [length_savgol_filter_y]
    rw [hl, winSlice_take_last]
    rw [length_savgol_filter_y]
    omega
  · intro s e h
    have hc := plateauScan_eq_some _ w t s e h
    rw [length_savgol_filter_y] at hc
    have hlen : w < y.length := by omega
    exact ⟨by omega, hc.2.1, by omega⟩
  · intro h
    apply plateauScan_eq_none
    rw [length_savgol_filter_y]
    exact h

theorem claim_C10_witness :
    (plateauScan (savgol_filter_y [0, 10, 5, 5]) 2 1 = none) ∧
    stdBelow (winSlice (savgol_filter_y [0, 10, 5, 5]) 2 2) 1 = true ∧
    (2 ≤ 7 - 2 - 1 ∧ 6 = 7 - 1 ∧ 6 < 7) := by
  have hs4 : savgol_filter_y [0, 10, 5, 5] = [0, 10, 5, 5] :=
    savgol_filter_y_small _ (by simp) (by simp)
  refine ⟨?_, ?_, ?_⟩
  · apply (claim_C10 [0, 10, 5, 5] 2 1).2.2
    intro i hi
    simp only [List.length_cons, List.length_nil] at hi
    rw [hs4]
    interval_cases i <;> norm_num [stdBelow, winSlice, varQ, meanQ]
  · rw [hs4]
    norm_num [stdBelow, winSlice, varQ, meanQ]
  · have h10 := (claim_C10 [0, 0, 10, 10, 10, 10, 10] 2 1).2.1 2 6 plateauScanY7Eval
    simpa using h10

/-! ## Claim C5 -/

/-- C5: when no window of any size from `max_window_size` down to
`min_window_size` of the smoothed curve has standard deviation below the
threshold, detection returns `(None, None)` at every size, M-max computation
fails with `NoCalculableMmaxError` instead of returning a value, and each
retry step shrinks the window size by exactly 1.  (The `4 ≤ len(y)`
hypothesis keeps the model inside the regime where the Python smoothing call
is defined at all: for `len(y) ≤ 3` scipy raises on window length 0.) -/
theorem claim_C5 (xs y : List ℚ) (maxw minw : ℕ) (t : ℚ)
    (hlen : 4 ≤ y.length) (hwin : minw ≤ maxw)
    (h : ∀ u, minw ≤ u → u ≤ maxw → ∀ i, i < y.length - u →
      stdBelow (winSlice (savgol_filter_y y) i u) t = false) :
    detect_plateau xs y maxw minw t = none ∧
    get_avg_mmax xs y maxw minw t = .error .noCalculableMmax ∧
    (∀ u, minw < u → plateauScan (savgol_filter_y y) u t = none →
      detectPlateauGo (savgol_filter_y y) minw t u =
        detectPlateauGo (savgol_filter_y y) minw t (u - 1)) := by
  have hdet : detect_plateau xs y maxw minw t = none := by
    rw [detect_plateau]
    apply detectPlateauGo_eq_none _ _ _ _ hwin
    intro u h1 h2
    apply plateauScan_eq_none
    rw [length_savgol_filter_y]
    exact h u h1 h2
  refine ⟨hdet, ?_, ?_⟩
  · rw [get_avg_mmax, hdet]
  · intro u hu hscan
    exact detectPlateauGo_shrink _ _ _ u hu hscan

theorem claim_C5_witness :
    4 ≤ ([0, 4, 5, 9, 10, 14] : List ℚ).length ∧
    get_avg_mmax [] [0, 4, 5, 9, 10, 14] 2 2 (2/5) = .error .noCalculableMmax := by
  have hs : savgol_filter_y [0, 4, 5, 9, 10, 14] = [0, 4, 5, 9, 10, 14] :=
    savgol_filter_y_small _ (by simp) (by simp)
  refine ⟨by simp, ?_⟩
  refine (claim_C5 [] [0, 4, 5, 9, 10, 14] 2 2 (2/5) (by simp) le_rfl ?_).2.1
  intro u h1 h2 i hi
  have hu : u = 2 := by omega
  subst hu
  simp only [List.length_cons, List.length_nil] at hi
  rw [hs]
  interval_cases i <;> norm_num [stdBelow, winSlice, varQ, meanQ]

/-! ## Claim C2 -/

/-- The M-max value claim C2 describes, written from the spec's words: the
mean of the raw (unsmoothed) amplitudes inside the plateau index range,
except that when this mean is strictly below the global maximum of the
curve, the result is that mean, plus the mean of the amplitudes strictly
greater than it, minus the mean of the plateau amplitudes strictly below
the plateau's own maximum. -/
def specMmaxFormula (y : List ℚ) (s e : ℕ) : ℚ :=
  let plateau := (y.drop s).take (e - s)
  let μ := meanQ plateau
  if μ < maxD y then
    μ + meanQ (y.filter (fun a => decide (μ < a)))
      - meanQ (plateau.filter (fun a => decide (a < maxD plateau)))
  else μ

/-- C2: on plateau-detection success with index range `(s, e)`, `get_avg_mmax`
returns exactly the value described by the claim.  The hypothesis `hnonconst`
rules out the corner where the bias correction averages an empty array (a
constant plateau strictly below the global maximum), where the Python code
produces NaN rather than a number. -/
theorem claim_C2 (xs y : List ℚ) (maxw minw : ℕ) (t : ℚ) (s e : ℕ)
    (hdet : detect_plateau xs y maxw minw t = some (s, e))
    (hnonconst : meanQ ((y.drop s).take (e - s)) < maxD y →
      ((y.drop s).take (e - s)).filter
        (fun a => decide (a < maxD ((y.drop s).take (e - s)))) ≠ []) :
    get_avg_mmax xs y maxw minw t = .ok (specMmaxFormula y s e) := by
  rw [get_avg_mmax, hdet, specMmaxFormula]
  simp only [apply_ite Except.ok]

theorem claim_C2_witness :
    detect_plateau [] [0, 20, 20, 21, 21, 21, 40] 2 2 1 = some (1, 6) ∧
    meanQ ((([0, 20, 20, 21, 21, 21, 40] : List ℚ).drop 1).take (6 - 1)) <
        maxD [0, 20, 20, 21, 21, 21, 40] ∧
    get_avg_mmax [] [0, 20, 20, 21, 21, 21, 40] 2 2 1 =
      .ok (specMmaxFormula [0, 20, 20, 21, 21, 21, 40] 1 6) ∧
    specMmaxFormula [0, 20, 20, 21, 21, 21, 40] 1 6 = 527 / 20 := by
  have hs : savgol_filter_y [0, 20, 20, 21, 21, 21, 40] = [0, 20, 20, 21, 21, 21, 40] :=
    savgol_filter_y_small _ (by simp) (by simp)
  have hdet : detect_plateau [] [0, 20, 20, 21, 21, 21, 40] 2 2 1 = some (1, 6) := by
    rw [detect_plateau, detectPlateauGo, hs]
    norm_num [plateauScan, plateauStep, stdBelow, winSlice, varQ, meanQ, List.range_succ]
  refine ⟨hdet, by norm_num [meanQ, maxD], ?_, ?_⟩
  · exact claim_C2 [] [0, 20, 20, 21, 21, 21, 40] 2 2 1 1 6 hdet
      (by intro hlt; norm_num [meanQ, maxD]; simp)
  · norm_num [specMmaxFormula, meanQ, maxD, List.filter]

/-! ## The EMG session entity (`EMGSession` in `Analyze_EMG.py`)

The model keeps exactly the state the claims are about: the active recording
list, the pristine deep copy retained at construction, the exclusion set,
and the scalar/config parameters the M-max pipeline reads.  The lazily
cached `_recordings_processed` / `_m_max` slots of the Python class are
write-invalidated (`reset_properties`) by every mutator before the next
read, so the property getters always return a function of the current raw
state; they are modelled as the derived functions `recordingsProcessed` and
`sessionMmax` below.  Python's stable `sorted(...)` is modelled by
`List.insertionSort`, which is also stable. -/

/-- One stimulus trial as stored in `recordings_raw` after construction. -/
structure Recording where
  recording_id : ℕ
  stimulus_v : ℚ
  channel_data : List (List ℚ)
deriving DecidableEq, Repr

/-- One recording as supplied by the session source descriptor (no id yet). -/
structure RawRecording where
  stimulus_v : ℚ
  channel_data : List (List ℚ)
deriving DecidableEq, Repr

/-- The configuration (`config.yml`) fields the session M-max pipeline reads:
the default extraction method, the `m_max_args`, and the M-wave latency
window parameters (which `update_reflex_parameters` copies into
`m_start` / `m_duration` at construction). -/
structure SessionConfig where
  defaultMethod : String
  maxWindowSize : ℕ
  minWindowSize : ℕ
  mmaxThreshold : ℚ
  mStart : List ℚ
  mDuration : List ℚ
deriving DecidableEq, Repr

/-- The session source descriptor (`session_data` from the importer). -/
structure SessionDescriptor where
  numChannels : ℕ
  scanRate : ℚ
  preStimAcquired : ℚ
  stimDelay : ℚ
  recordings : List RawRecording
deriving DecidableEq, Repr

/-- The session state acted on by the claims. -/
structure Session where
  numChannels : ℕ
  scanRate : ℚ
  stimStart : ℚ
  mStart : List ℚ
  mDuration : List ℚ
  defaultMethod : String
  maxWindowSize : ℕ
  minWindowSize : ℕ
  mmaxThreshold : ℚ
  recordingsRaw : List Recording
  originalRecordings : List Recording
  excludedRecordings : Finset ℕ
deriving DecidableEq

/-- Python's stable `sorted(recordings, key=lambda x: x["stimulus_v"])`. -/
def sortByStimulusV (l : List RawRecording) : List RawRecording :=
  List.insertionSort (fun a b => a.stimulus_v ≤ b.stimulus_v) l

/-- Python's stable `sorted(recordings, key=lambda x: x["recording_id"])`. -/
def sortByRecordingId (l : List Recording) : List Recording :=
  List.insertionSort (fun a b => a.recording_id ≤ b.recording_id) l

/-- `EMGSession._initialize_from_data`: sort the source recordings by
stimulus voltage, assign `recording_id = index` by enumeration, retain a
deep copy as `_original_recordings`, start with an empty exclusion set, and
copy the reflex-window and M-max parameters out of the configuration. -/
def initSession (cfg : SessionConfig) (desc : SessionDescriptor) : Session :=
  let raw := (sortByStimulusV desc.recordings).enum.map
    (fun p => { recording_id := p.1, stimulus_v := p.2.stimulus_v,
                channel_data := p.2.channel_data : Recording })
  { numChannels := desc.numChannels
    scanRate := desc.scanRate
    stimStart := desc.stimDelay + desc.preStimAcquired
    mStart := cfg.mStart
    mDuration := cfg.mDuration
    defaultMethod := cfg.defaultMethod
    maxWindowSize := cfg.maxWindowSize
    minWindowSize := cfg.minWindowSize
    mmaxThreshold := cfg.mmaxThreshold
    recordingsRaw := raw
    originalRecordings := raw
    excludedRecordings := ∅ }

/-- `EMGSession.exclude_recording`: fails fast when already excluded, else
adds the id to the exclusion set and filters it out of the active list
(caches are invalidated, which the derived-function model makes implicit). -/
def excludeRecording (s : Session) (r : ℕ) : Except String Session :=
  if r ∈ s.excludedRecordings then
    .error "Recording is already excluded."
  else
    .ok { s with
      excludedRecordings := insert r s.excludedRecordings
      recordingsRaw := s.recordingsRaw.filter (fun rec => decide (rec.recording_id ≠ r)) }

/-- `EMGSession.restore_recording`: fails fast when not excluded; pops the
entry at position `r` of the pristine `_original_recordings` copy (ids are
positional there, so this is the recording with id `r`; an out-of-range id
raises `IndexError`), appends it to the active list, removes the id from the
exclusion set and re-sorts the active list by `recording_id`. -/
def restoreRecording (s : Session) (r : ℕ) : Except String Session :=
  if r ∉ s.excludedRecordings then
    .error "Recording is not excluded."
  else
    match s.originalRecordings.get? r with
    | none => .error "IndexError: pop index out of range"
    | some rec => .ok { s with
        recordingsRaw := sortByRecordingId (s.recordingsRaw ++ [rec])
        excludedRecordings := s.excludedRecordings.erase r }

/-- `EMGSession.reload_recordings`: reset the active list to a deep copy of
the pristine backup and clear the exclusion set. -/
def reloadRecordings (s : Session) : Session :=
  { s with recordingsRaw := s.originalRecordings, excludedRecordings := ∅ }

/-- `EMGSession.invert_channel_polarity`: multiply channel `c` of every
ACTIVE recording by `-1` in place (the pristine `_original_recordings` deep
copy is untouched). -/
def invertChannelPolarity (s : Session) (c : ℕ) : Session :=
  { s with recordingsRaw := s.recordingsRaw.map (fun rec =>
      { rec with channel_data :=
          rec.channel_data.mapIdx (fun i ch => if i = c then ch.map (fun v => -v) else ch) }) }

/-- The `recordings_processed` property: `_process_emg_data(recordings_raw,
apply_filter=True, rectify=False)` - every channel of every recording run
through the (external, here parametric) Butterworth bandpass filter. -/
def recordingsProcessed (butterFn : List ℚ → List ℚ) (s : Session) : List Recording :=
  s.recordingsRaw.map (fun rec => { rec with channel_data := rec.channel_data.map butterFn })

/-- The stimulus-voltage curve fed to the detector:
`[recording["stimulus_v"] for recording in self.recordings_processed]`. -/
def sessionStimulusVoltages (butterFn : List ℚ → List ℚ) (s : Session) : List ℚ :=
  (recordingsProcessed butterFn s).map (fun rec => rec.stimulus_v)

/-- The per-channel M-wave amplitude curve of the `m_max` property:
`calculate_emg_amplitude` applied to the M-wave latency window of channel
`c` of every processed recording, at the configured default method.  This
list comprehension sits OUTSIDE the `try` block in the source, so a
`ValueError` raised here aborts the whole property - hence the `Except`. -/
def channelAmplitudes (butterFn : List ℚ → List ℚ) (sqrtFn : ℚ → ℚ) (s : Session) (c : ℕ) :
    Except TransformError (List ℚ) :=
  (recordingsProcessed butterFn s).mapM (fun rec =>
    calculate_emg_amplitude sqrtFn (rec.channel_data.getD c [])
      (s.mStart.getD c 0 + s.stimStart)
      (s.mStart.getD c 0 + s.stimStart + s.mDuration.getD c 0)
      s.scanRate s.defaultMethod)

/-- One iteration of the `m_max` property's channel loop: the amplitudes are
computed, then `get_avg_mmax` is called inside `try`; `NoCalculableMmaxError`
and `ValueError` from that call both append `None` and continue. -/
def sessionChannelMmax (butterFn : List ℚ → List ℚ) (sqrtFn : ℚ → ℚ) (s : Session) (c : ℕ) :
    Except TransformError (Option ℚ) :=
  match channelAmplitudes butterFn sqrtFn s c with
  | .error e => .error e
  | .ok amps =>
    match get_avg_mmax (sessionStimulusVoltages butterFn s) amps s.maxWindowSize
        s.minWindowSize s.mmaxThreshold with
    | .ok v => .ok (some v)
    | .error _ => .ok none

/-- The `m_max` property of `EMGSession`: the channel loop over
`range(self.num_channels)`. -/
def sessionMmax (butterFn : List ℚ → List ℚ) (sqrtFn : ℚ → ℚ) (s : Session) :
    Except TransformError (List (Option ℚ)) :=
  (List.range s.numChannels).mapM (sessionChannelMmax butterFn sqrtFn s)

/-! ## Ordering lemmas for the recording lists -/

/-- Strict ordering of recordings by id; with the trivial `∨ =` escape it is
antisymmetric, which gives uniqueness of sorted permutations. -/
def recIdLtEq (a b : Recording) : Prop :=
  a.recording_id < b.recording_id ∨ a = b

instance : IsAntisymm Recording recIdLtEq := by
  constructor
  intro a b hab hba
  rcases hab with h | h
  · rcases hba with h2 | h2
    · omega
    · exact h2.symm
  · exact h

instance : IsTotal Recording (fun a b => a.recording_id ≤ b.recording_id) :=
  ⟨fun a b => Nat.le_total a.recording_id b.recording_id⟩

instance : IsTrans Recording (fun a b => a.recording_id ≤ b.recording_id) :=
  ⟨fun _ _ _ h1 h2 => le_trans h1 h2⟩

/-- Two permuted lists both strictly sorted by `recording_id` are equal. -/
theorem eq_of_perm_of_pairwise_idLt {l₁ l₂ : List Recording} (p : l₁.Perm l₂)
    (h₁ : l₁.Pairwise (fun a b => a.recording_id < b.recording_id))
    (h₂ : l₂.Pairwise (fun a b => a.recording_id < b.recording_id)) : l₁ = l₂ :=
  List.eq_of_perm_of_sorted (r := recIdLtEq) p
    (h₁.imp (fun h => Or.inl h)) (h₂.imp (fun h => Or.inl h))

/-- Positional ids (`recording_id i = i`) make a list strictly sorted. -/
theorem pairwise_idLt_of_positional {l : List Recording}
    (h : ∀ i (hi : i < l.length), (l.get ⟨i, hi⟩).recording_id = i) :
    l.Pairwise (fun a b => a.recording_id < b.recording_id) := by
  rw [List.pairwise_iff_get]
  intro i j hij
  rw [h i.1 i.2, h j.1 j.2]
  exact hij

theorem sortByRecordingId_sorted (l : List Recording) :
    (sortByRecordingId l).Pairwise (fun a b => a.recording_id ≤ b.recording_id) :=
  List.sorted_insertionSort _ l

theorem sortByRecordingId_perm (l : List Recording) : (sortByRecordingId l).Perm l :=
  List.perm_insertionSort _ l

/-- Key restore lemma: inserting back the pristine entry at position `r`
(whose id is `r`) into an id-filtered slice of a positional-id list and
re-sorting by id yields exactly the filter that also admits id `r`. -/
theorem sortById_filter_insert (orig : List Recording)
    (hpos : ∀ i (hi : i < orig.length), (orig.get ⟨i, hi⟩).recording_id = i)
    (q : ℕ → Bool) (r : ℕ) (x : Recording)
    (hx : orig.get? r = some x) (hq : q r = false) :
    sortByRecordingId ((orig.filter (fun rec => q rec.recording_id)) ++ [x]) =
      orig.filter (fun rec => q rec.recording_id || decide (rec.recording_id = r)) := by
  have hr : r < orig.length := by
    rcases List.get?_eq_some.mp hx with ⟨h, _⟩
    exact h
  have hget : orig.get ⟨r, hr⟩ = x := by
    rcases List.get?_eq_some.mp hx with ⟨h, hg⟩
    exact hg
  have hxid : x.recording_id = r := by rw [← hget]; exact hpos r hr
  -- decompose around position r
  have hsplit : orig = orig.take r ++ x :: orig.drop (r + 1) := by
    conv_lhs => rw [← List.take_append_drop r orig]
    rw [List.drop_eq_getElem_cons hr]
    simp [← hget]
  have hAid : ∀ a ∈ orig.take r, a.recording_id < r := by
    intro a ha
    rcases List.mem_iff_getElem.mp ha with ⟨i, hi, hia⟩
    have hir : i < r ∧ i < orig.length := by
      have h2 : (orig.take r).length = min r orig.length := List.length_take r orig
      omega
    have hia2 : orig[i] = a := by rw [← List.getElem_take orig]; exact hia
    have := hpos i hir.2
    rw [List.get_eq_getElem, hia2] at this
    omega
  have hBid : ∀ b ∈ orig.drop (r + 1), r < b.recording_id := by
    intro b hb
    rcases List.mem_iff_getElem.mp hb with ⟨i, hi, hib⟩
    have hil : r + 1 + i < orig.length := by
      have h2 : (orig.drop (r + 1)).length = orig.length - (r + 1) := List.length_drop _ _
      omega
    have hib2 : orig[r + 1 + i] = b := by rw [← List.getElem_drop orig]; exact hib
    have := hpos (r + 1 + i) hil
    rw [List.get_eq_getElem, hib2] at this
    omega
  -- orig is strictly sorted by id
  have horig : orig.Pairwise (fun a b => a.recording_id < b.recording_id) :=
    pairwise_idLt_of_positional hpos
  -- compute the two filters over the decomposition
  have hfq : orig.filter (fun rec => q rec.recording_id) =
      (orig.take r).filter (fun rec => q rec.recording_id) ++
        (orig.drop (r + 1)).filter (fun rec => q rec.recording_id) := by
    conv_lhs => rw [hsplit]
    rw [List.filter_append, List.filter_cons, hxid, hq]
    simp
  have hfqr : orig.filter (fun rec => q rec.recording_id || decide (rec.recording_id = r)) =
      (orig.take r).filter (fun rec => q rec.recording_id) ++
        x :: (orig.drop (r + 1)).filter (fun rec => q rec.recording_id) := by
    conv_lhs => rw [hsplit]
    rw [List.filter_append, List.filter_cons, hxid, hq]
    have h1 : ((orig.take r).filter
        (fun rec => q rec.recording_id || decide (rec.recording_id = r))) =
        (orig.take r).filter (fun rec => q rec.recording_id) := by
      apply List.filter_congr
      intro a ha
      have := hAid a ha
      simp [Nat.ne_of_lt this]
    have h2 : ((orig.drop (r + 1)).filter
        (fun rec => q rec.recording_id || decide (rec.recording_id = r))) =
        (orig.drop (r + 1)).filter (fun rec => q rec.recording_id) := by
      apply List.filter_congr
      intro a ha
      have := hBid a ha
      simp [(Nat.ne_of_lt this).symm]
    rw [h1, h2]
    simp
  -- the sorted insert is a permutation of the extended filter
  have hperm : (sortByRecordingId ((orig.filter (fun rec => q rec.recording_id)) ++ [x])).Perm
      (orig.filter (fun rec => q rec.recording_id || decide (rec.recording_id = r))) := by
    refine (sortByRecordingId_perm _).trans ?_
    rw [hfq, hfqr, List.append_assoc]
    refine List.Perm.append_left _ ?_
    exact List.perm_append_singleton x _
  -- both sides strictly sorted by id
  have hRHS : (orig.filter
      (fun rec => q rec.recording_id || decide (rec.recording_id = r))).Pairwise
      (fun a b => a.recording_id < b.recording_id) :=
    horig.sublist (List.filter_sublist orig)
  have hLHSle := sortByRecordingId_sorted ((orig.filter (fun rec => q rec.recording_id)) ++ [x])
  have hne : (sortByRecordingId ((orig.filter (fun rec => q rec.recording_id)) ++ [x])).Pairwise
      (fun a b => a.recording_id ≠ b.recording_id) := by
    exact (hperm.pairwise_iff (fun h => Ne.symm h)).mpr (hRHS.imp (fun h => Nat.ne_of_lt h))
  have hLHS : (sortByRecordingId ((orig.filter (fun rec => q rec.recording_id)) ++ [x])).Pairwise
      (fun a b => a.recording_id < b.recording_id) :=
    (hLHSle.and hne).imp (fun h => lt_of_le_of_ne h.1 h.2)
  exact eq_of_perm_of_pairwise_idLt hperm hLHS hRHS

/-! ## Session invariant: active/excluded partition over the pristine set -/

/-- The invariant claim C6 asserts: ids in the pristine backup are
positional (assigned 0,1,2,... at construction and never reassigned), and
the active list is exactly the pristine set filtered by non-membership of
`recording_id` in the exclusion set. -/
def sessionInvariant (s : Session) : Prop :=
  (∀ i (hi : i < s.originalRecordings.length),
    (s.originalRecordings.get ⟨i, hi⟩).recording_id = i) ∧
  s.recordingsRaw = s.originalRecordings.filter
    (fun rec => decide (rec.recording_id ∉ s.excludedRecordings))

theorem initSession_positional (cfg : SessionConfig) (desc : SessionDescriptor) :
    ∀ i (hi : i < (initSession cfg desc).originalRecordings.length),
      ((initSession cfg desc).originalRecordings.get ⟨i, hi⟩).recording_id = i := by
  intro i hi
  simp [initSession, List.get_eq_getElem, List.getElem_enum]

theorem sessionInvariant_init (cfg : SessionConfig) (desc : SessionDescriptor) :
    sessionInvariant (initSession cfg desc) := by
  refine ⟨initSession_positional cfg desc, ?_⟩
  have : ∀ rec : Recording, (decide (rec.recording_id ∉ (∅ : Finset ℕ))) = true := by
    intro rec; simp
  simp [initSession]

theorem excludeRecording_invariant (s : Session) (r : ℕ) (s' : Session)
    (hinv : sessionInvariant s) (h : excludeRecording s r = .ok s') :
    sessionInvariant s' ∧ s'.originalRecordings = s.originalRecordings := by
  rw [excludeRecording] at h
  split at h
  · exact absurd h (by simp)
  · rename_i hmem
    obtain rfl : _ = s' := by injection h
    refine ⟨⟨hinv.1, ?_⟩, rfl⟩
    simp only [hinv.2, List.filter_filter]
    apply List.filter_congr
    intro a _
    by_cases har : a.recording_id = r
    · simp [har, Finset.mem_insert]
    · simp [har, Finset.mem_insert]

theorem restoreRecording_invariant (s : Session) (r : ℕ) (s' : Session)
    (hinv : sessionInvariant s) (h : restoreRecording s r = .ok s') :
    sessionInvariant s' ∧ s'.originalRecordings = s.originalRecordings := by
  rw [restoreRecording] at h
  split at h
  · exact absurd h (by simp)
  · rename_i hmem
    rw [not_not] at hmem
    rcases hx : s.originalRecordings.get? r with _ | x
    · rw [hx] at h; exact absurd h (by simp)
    · rw [hx] at h
      obtain rfl : _ = s' := by injection h
      refine ⟨⟨hinv.1, ?_⟩, rfl⟩
      simp only [hinv.2]
      have hq : (fun n => decide (n ∉ s.excludedRecordings)) r = false := by
        simp [hmem]
      have := sortById_filter_insert s.originalRecordings hinv.1
        (fun n => decide (n ∉ s.excludedRecordings)) r x hx hq
      simp only at this ⊢
      rw [this]
      apply List.filter_congr
      intro a _
      by_cases har : a.recording_id = r
      · simp [har, Finset.mem_erase, hmem]
      · simp [har, Finset.mem_erase]

theorem reloadRecordings_invariant (s : Session)
    (hinv : sessionInvariant s) :
    sessionInvariant (reloadRecordings s) ∧
      (reloadRecordings s).originalRecordings = s.originalRecordings := by
  refine ⟨⟨hinv.1, ?_⟩, rfl⟩
  simp [reloadRecordings]

/-- The session mutators claim C6 quantifies over.  A failed call (Python
raises before mutating the recording lists) leaves the state unchanged. -/
inductive SessionOp where
  | exclude (r : ℕ)
  | restore (r : ℕ)
  | reload
deriving DecidableEq, Repr

def applyOp (s : Session) : SessionOp → Session
  | .exclude r => match excludeRecording s r with | .ok s' => s' | .error _ => s
  | .restore r => match restoreRecording s r with | .ok s' => s' | .error _ => s
  | .reload => reloadRecordings s

def applyOps (s : Session) (ops : List SessionOp) : Session := ops.foldl applyOp s

theorem applyOp_invariant (s : Session) (op : SessionOp) (hinv : sessionInvariant s) :
    sessionInvariant (applyOp s op) ∧ (applyOp s op).originalRecordings = s.originalRecordings := by
  cases op with
  | exclude r =>
    rw [applyOp]
    rcases h : excludeRecording s r with _ | s'
    · exact ⟨hinv, rfl⟩
    · exact excludeRecording_invariant s r s' hinv h
  | restore r =>
    rw [applyOp]
    rcases h : restoreRecording s r with _ | s'
    · exact ⟨hinv, rfl⟩
    · exact restoreRecording_invariant s r s' hinv h
  | reload => exact reloadRecordings_invariant s hinv

theorem applyOps_invariant (s : Session) (ops : List SessionOp) (hinv : sessionInvariant s) :
    sessionInvariant (applyOps s ops) ∧ (applyOps s ops).originalRecordings = s.originalRecordings := by
  induction ops generalizing s with
  | nil => exact ⟨hinv, rfl⟩
  | cons op ops ih =>
    rw [applyOps, List.foldl_cons]
    have h1 := applyOp_invariant s op hinv
    have h2 := ih (applyOp s op) h1.1
    exact ⟨h2.1, by rw [applyOps] at h2; rw [h2.2, h1.2]⟩

instance : IsTotal RawRecording (fun a b => a.stimulus_v ≤ b.stimulus_v) :=
  ⟨fun a b => le_total a.stimulus_v b.stimulus_v⟩

instance : IsTrans RawRecording (fun a b => a.stimulus_v ≤ b.stimulus_v) :=
  ⟨fun _ _ _ h1 h2 => le_trans h1 h2⟩

theorem initSession_stim_ascending (cfg : SessionConfig) (desc : SessionDescriptor) :
    ∀ i j (hi : i < (initSession cfg desc).originalRecordings.length)
      (hj : j < (initSession cfg desc).originalRecordings.length), i ≤ j →
      ((initSession cfg desc).originalRecordings.get ⟨i, hi⟩).stimulus_v ≤
        ((initSession cfg desc).originalRecordings.get ⟨j, hj⟩).stimulus_v := by
  intro i j hi hj hij
  have hsorted : (sortByStimulusV desc.recordings).Pairwise
      (fun a b => a.stimulus_v ≤ b.stimulus_v) :=
    List.sorted_insertionSort _ desc.recordings
  have hlen : ∀ {k}, k < (initSession cfg desc).originalRecordings.length →
      k < (sortByStimulusV desc.recordings).length := by
    intro k hk
    simpa [initSession] using hk
  have hstim : ∀ k (hk : k < (initSession cfg desc).originalRecordings.length),
      ((initSession cfg desc).originalRecordings.get ⟨k, hk⟩).stimulus_v =
        ((sortByStimulusV desc.recordings).get ⟨k, hlen hk⟩).stimulus_v := by
    intro k hk
    simp [initSession, List.get_eq_getElem, List.getElem_enum]
  rw [hstim i hi, hstim j hj]
  rcases Nat.lt_or_ge i j with hlt | hge
  · exact List.pairwise_iff_get.mp hsorted ⟨i, hlen hi⟩ ⟨j, hlen hj⟩ hlt
  · have : i = j := by omega
    subst this
    exact le_refl _

/-- C6: from any session constructed from a source descriptor, after any
sequence of exclude/restore/reload calls (failed calls raise before mutating
and leave the state unchanged): the pristine backup is untouched, its
recording ids are exactly the positions 0,1,2,... and were assigned in
ascending order of stimulus voltage at construction, the active list is the
pristine set filtered by non-membership in the exclusion set, and the active
recordings together with the pristine recordings whose ids are excluded form
a partition of the original full recording set. -/
theorem claim_C6 (cfg : SessionConfig) (desc : SessionDescriptor) (ops : List SessionOp) :
    (applyOps (initSession cfg desc) ops).originalRecordings =
      (initSession cfg desc).originalRecordings ∧
    (∀ i (hi : i < (applyOps (initSession cfg desc) ops).originalRecordings.length),
      ((applyOps (initSession cfg desc) ops).originalRecordings.get ⟨i, hi⟩).recording_id = i) ∧
    (∀ i j (hi : i < (applyOps (initSession cfg desc) ops).originalRecordings.length)
      (hj : j < (applyOps (initSession cfg desc) ops).originalRecordings.length), i ≤ j →
      ((applyOps (initSession cfg desc) ops).originalRecordings.get ⟨i, hi⟩).stimulus_v ≤
        ((applyOps (initSession cfg desc) ops).originalRecordings.get ⟨j, hj⟩).stimulus_v) ∧
    (applyOps (initSession cfg desc) ops).recordingsRaw =
      (applyOps (initSession cfg desc) ops).originalRecordings.filter
        (fun rec => decide (rec.recording_id ∉
          (applyOps (initSession cfg desc) ops).excludedRecordings)) ∧
    ((applyOps (initSession cfg desc) ops).originalRecordings.filter
        (fun rec => decide (rec.recording_id ∈
          (applyOps (initSession cfg desc) ops).excludedRecordings)) ++
      (applyOps (initSession cfg desc) ops).recordingsRaw).Perm
        (applyOps (initSession cfg desc) ops).originalRecordings := by
  have hinv := applyOps_invariant (initSession cfg desc) ops (sessionInvariant_init cfg desc)
  refine ⟨hinv.2, ?_, ?_, hinv.1.2, ?_⟩
  · rw [hinv.2]; exact initSession_positional cfg desc
  · intro i j hi hj hij
    have hi2 : i < (initSession cfg desc).originalRecordings.length := by rw [← hinv.2]; exact hi
    have hj2 : j < (initSession cfg desc).originalRecordings.length := by rw [← hinv.2]; exact hj
    have := initSession_stim_ascending cfg desc i j hi2 hj2 hij
    convert this using 2 <;> exact List.get_of_eq hinv.2 _
  · rw [hinv.1.2]
    have hcongr : (applyOps (initSession cfg desc) ops).originalRecordings.filter
        (fun rec => decide (rec.recording_id ∉
          (applyOps (initSession cfg desc) ops).excludedRecordings)) =
        (applyOps (initSession cfg desc) ops).originalRecordings.filter
          (fun rec => !(decide (rec.recording_id ∈
            (applyOps (initSession cfg desc) ops).excludedRecordings))) := by
      apply List.filter_congr
      intro a _
      simp
    rw [hcongr]
    exact List.filter_append_perm _ _

/-- Concrete instantiation data for the C6 witness: two source recordings
supplied in descending stimulus order, one channel each. -/
def c6cfg : SessionConfig :=
  { defaultMethod := "average_rectified", maxWindowSize := 20, minWindowSize := 3,
    mmaxThreshold := 3/10, mStart := [2], mDuration := [3] }

def c6desc : SessionDescriptor :=
  { numChannels := 1, scanRate := 1000, preStimAcquired := 1, stimDelay := 1,
    recordings := [{ stimulus_v := 5, channel_data := [[7]] },
                   { stimulus_v := 3, channel_data := [[2]] }] }

theorem c6InitEval : (initSession c6cfg c6desc).originalRecordings =
    [{ recording_id := 0, stimulus_v := 3, channel_data := [[2]] },
     { recording_id := 1, stimulus_v := 5, channel_data := [[7]] }] := by
  norm_num [initSession, c6cfg, c6desc, sortByStimulusV, List.insertionSort,
    List.orderedInsert, List.enum, List.enumFrom]

theorem c6ApplyEval :
    applyOps (initSession c6cfg c6desc) [SessionOp.exclude 0] =
      { initSession c6cfg c6desc with
        recordingsRaw := [{ recording_id := 1, stimulus_v := 5, channel_data := [[7]] }],
        excludedRecordings := {0} } := by
  have horig := c6InitEval
  have hraw : (initSession c6cfg c6desc).recordingsRaw =
      (initSession c6cfg c6desc).originalRecordings := rfl
  have hexcl : (initSession c6cfg c6desc).excludedRecordings = ∅ := rfl
  norm_num [applyOps, applyOp, excludeRecording, hraw, horig, hexcl]

theorem claim_C6_witness :
    (applyOps (initSession c6cfg c6desc) [SessionOp.exclude 0]).originalRecordings =
      (initSession c6cfg c6desc).originalRecordings ∧
    (applyOps (initSession c6cfg c6desc) [SessionOp.exclude 0]).recordingsRaw =
      (applyOps (initSession c6cfg c6desc) [SessionOp.exclude 0]).originalRecordings.filter
        (fun rec => decide (rec.recording_id ∉
          (applyOps (initSession c6cfg c6desc) [SessionOp.exclude 0]).excludedRecordings)) ∧
    ((applyOps (initSession c6cfg c6desc) [SessionOp.exclude 0]).originalRecordings.filter
        (fun rec => decide (rec.recording_id ∈
          (applyOps (initSession c6cfg c6desc) [SessionOp.exclude 0]).excludedRecordings)) ++
      (applyOps (initSession c6cfg c6desc) [SessionOp.exclude 0]).recordingsRaw).Perm
        (applyOps (initSession c6cfg c6desc) [SessionOp.exclude 0]).originalRecordings ∧
    (applyOps (initSession c6cfg c6desc) [SessionOp.exclude 0]).recordingsRaw =
      [{ recording_id := 1, stimulus_v := 5, channel_data := [[7]] }] :=
  ⟨(claim_C6 c6cfg c6desc [SessionOp.exclude 0]).1,
   (claim_C6 c6cfg c6desc [SessionOp.exclude 0]).2.2.2.1,
   (claim_C6 c6cfg c6desc [SessionOp.exclude 0]).2.2.2.2,
   by rw [c6ApplyEval]⟩

/-! ## Claim C3 -/

/-- C3 (amended): for a session whose active recordings agree with the
pristine backup (ids positional in the backup, active list = backup filtered
by the exclusion set - true of any session not mutated in place since
construction), excluding an active recording id and then restoring it
returns exactly the pre-exclusion state: the active recording list, the
per-channel M-max, indeed every field, element for element. -/
theorem claim_C3_amended (s : Session) (r : ℕ)
    (hpos : ∀ i (hi : i < s.originalRecordings.length),
      (s.originalRecordings.get ⟨i, hi⟩).recording_id = i)
    (hraw : s.recordingsRaw = s.originalRecordings.filter
      (fun rec => decide (rec.recording_id ∉ s.excludedRecordings)))
    (hactive : r ∈ s.recordingsRaw.map (fun rec => rec.recording_id)) :
    ∃ s₁ s₂, excludeRecording s r = .ok s₁ ∧ restoreRecording s₁ r = .ok s₂ ∧
      s₂.recordingsRaw = s.recordingsRaw ∧
      (∀ butterFn sqrtFn, sessionMmax butterFn sqrtFn s₂ = sessionMmax butterFn sqrtFn s) ∧
      s₂ = s := by
  -- unpack the active id
  rcases List.mem_map.mp hactive with ⟨rec, hrecmem, hrecid⟩
  have hrecfilter := hraw ▸ hrecmem
  rcases List.mem_filter.mp hrecfilter with ⟨hrecorig, hrecdec⟩
  have hrnotin : r ∉ s.excludedRecordings := by
    rw [← hrecid]
    simpa using hrecdec
  -- the pristine entry at position r
  have hr : r < s.originalRecordings.length := by
    rcases List.mem_iff_get.mp hrecorig with ⟨i, hi⟩
    have := hpos i.1 i.2
    rw [hi, hrecid] at this
    omega
  have hx : s.originalRecordings.get? r = some (s.originalRecordings.get ⟨r, hr⟩) :=
    List.get?_eq_get hr
  set x := s.originalRecordings.get ⟨r, hr⟩ with hxdef
  -- the excluded intermediate state
  have hexcl : excludeRecording s r = .ok { s with
      excludedRecordings := insert r s.excludedRecordings
      recordingsRaw := s.recordingsRaw.filter (fun rec => decide (rec.recording_id ≠ r)) } := by
    rw [excludeRecording, if_neg hrnotin]
  -- the intermediate active list as a single filter of the pristine backup
  have hs1raw : s.recordingsRaw.filter (fun rec => decide (rec.recording_id ≠ r)) =
      s.originalRecordings.filter
        (fun rec => decide (rec.recording_id ∉ insert r s.excludedRecordings)) := by
    rw [hraw, List.filter_filter]
    apply List.filter_congr
    intro a _
    by_cases har : a.recording_id = r
    · simp [har, Finset.mem_insert]
    · simp [har, Finset.mem_insert]
  -- restoring sorts the pristine entry back into place
  have hq : (fun n => decide (n ∉ insert r s.excludedRecordings)) r = false := by
    simp
  have hsorted := sortById_filter_insert s.originalRecordings hpos
    (fun n => decide (n ∉ insert r s.excludedRecordings)) r x hx hq
  have hback : sortByRecordingId
      (s.originalRecordings.filter
        (fun rec => decide (rec.recording_id ∉ insert r s.excludedRecordings)) ++ [x]) =
      s.recordingsRaw := by
    simp only at hsorted
    rw [hsorted, hraw]
    apply List.filter_congr
    intro a _
    by_cases har : a.recording_id = r
    · simp [har, hrnotin]
    · simp [har, Finset.mem_insert]
  have herase : (insert r s.excludedRecordings).erase r = s.excludedRecordings :=
    Finset.erase_insert hrnotin
  have hrestore : restoreRecording { s with
      excludedRecordings := insert r s.excludedRecordings
      recordingsRaw := s.recordingsRaw.filter (fun rec => decide (rec.recording_id ≠ r)) } r =
      .ok s := by
    rw [restoreRecording]
    rw [if_neg (by simp)]
    simp only [hx]
    congr 1
    have hfinal : sortByRecordingId
        ((s.recordingsRaw.filter (fun rec => decide (rec.recording_id ≠ r))) ++ [x]) =
        s.recordingsRaw := by
      rw [hs1raw]
      exact hback
    cases s
    simp_all
  exact ⟨_, s, hexcl, hrestore, rfl, fun _ _ => rfl, rfl⟩

def c3cfg : SessionConfig :=
  { defaultMethod := "average_rectified", maxWindowSize := 20, minWindowSize := 3,
    mmaxThreshold := 3/10, mStart := [2], mDuration := [3] }

def c3desc : SessionDescriptor :=
  { numChannels := 1, scanRate := 1000, preStimAcquired := 1, stimDelay := 1,
    recordings := [{ stimulus_v := 0, channel_data := [[1]] }] }

/-- The fully evaluated session constructed from `c3desc`. -/
def c3init : Session :=
  { numChannels := 1, scanRate := 1000, stimStart := 2, mStart := [2], mDuration := [3],
    defaultMethod := "average_rectified", maxWindowSize := 20, minWindowSize := 3,
    mmaxThreshold := 3/10,
    recordingsRaw := [{ recording_id := 0, stimulus_v := 0, channel_data := [[1]] }],
    originalRecordings := [{ recording_id := 0, stimulus_v := 0, channel_data := [[1]] }],
    excludedRecordings := ∅ }

theorem c3InitEval : initSession c3cfg c3desc = c3init := by
  norm_num [initSession, c3cfg, c3desc, c3init, sortByStimulusV, List.insertionSort,
    List.orderedInsert, List.enum, List.enumFrom]

theorem c3InvertEval :
    invertChannelPolarity (initSession c3cfg c3desc) 0 =
      { c3init with
        recordingsRaw := [{ recording_id := 0, stimulus_v := 0, channel_data := [[-1]] }] } := by
  rw [c3InitEval]
  norm_num [invertChannelPolarity, c3init, List.mapIdx_cons, List.mapIdx_nil]

theorem c3ExcludeEval :
    excludeRecording (invertChannelPolarity (initSession c3cfg c3desc) 0) 0 =
      .ok { c3init with recordingsRaw := [], excludedRecordings := {0} } := by
  rw [c3InvertEval]
  norm_num [excludeRecording, c3init]

theorem c3RestoreEval :
    restoreRecording ({ c3init with recordingsRaw := [], excludedRecordings := {0} }) 0 =
      .ok { c3init with
        recordingsRaw := [{ recording_id := 0, stimulus_v := 0, channel_data := [[1]] }],
        excludedRecordings := ({0} : Finset ℕ).erase 0 } := by
  norm_num [restoreRecording, c3init, sortByRecordingId, List.insertionSort, List.orderedInsert]

/-- C3, counterexample: `restore_recording` re-inserts the PRISTINE copy of
the recording, so on a session whose data was mutated after construction
(here: `invert_channel_polarity` on channel 0, a public mutator), excluding
the active recording id 0 and then restoring it does NOT reproduce the
pre-exclusion active recording list: the restored recording has the
un-inverted pristine samples `[[1]]` instead of `[[-1]]`. -/
theorem claim_C3_counterexample :
    0 ∈ (invertChannelPolarity (initSession c3cfg c3desc) 0).recordingsRaw.map
      (fun rec => rec.recording_id) ∧
    (invertChannelPolarity (initSession c3cfg c3desc) 0).recordingsRaw =
      [{ recording_id := 0, stimulus_v := 0, channel_data := [[-1]] }] ∧
    ((excludeRecording (invertChannelPolarity (initSession c3cfg c3desc) 0) 0).bind
      (fun s₁ => restoreRecording s₁ 0)).map (fun s₂ => s₂.recordingsRaw) =
      .ok [{ recording_id := 0, stimulus_v := 0, channel_data := [[1]] }] ∧
    ([{ recording_id := 0, stimulus_v := 0, channel_data := [[1]] }] : List Recording) ≠
      [{ recording_id := 0, stimulus_v := 0, channel_data := [[-1]] }] := by
  refine ⟨?_, ?_, ?_, ?_⟩
  · rw [c3InvertEval]; simp
  · rw [c3InvertEval]
  · rw [c3ExcludeEval]
    have hb : ((Except.ok ({ c3init with recordingsRaw := ([] : List Recording), excludedRecordings := ({0} : Finset ℕ) }) : Except String Session).bind (fun s₁ => restoreRecording s₁ 0)) = restoreRecording ({ c3init with recordingsRaw := ([] : List Recording), excludedRecordings := ({0} : Finset ℕ) }) 0 := rfl
    rw [hb, c3RestoreEval]
    rfl
  · intro h
    have h2 := List.head_eq_of_cons_eq h
    rw [Recording.mk.injEq] at h2
    have h3 : ([[1]] : List (List ℚ)) = [[-1]] := h2.2.2
    have h4 := List.head_eq_of_cons_eq h3
    have h5 := List.head_eq_of_cons_eq h4
    norm_num at h5

theorem claim_C3_amended_witness :
    (0 ∈ c3init.recordingsRaw.map (fun rec => rec.recording_id)) ∧
    (∃ s₁ s₂, excludeRecording c3init 0 = .ok s₁ ∧ restoreRecording s₁ 0 = .ok s₂ ∧
      s₂.recordingsRaw = c3init.recordingsRaw ∧
      (∀ butterFn sqrtFn, sessionMmax butterFn sqrtFn s₂ = sessionMmax butterFn sqrtFn c3init) ∧
      s₂ = c3init) :=
  ⟨by simp [c3init],
   claim_C3_amended c3init 0
    (by
      intro i hi
      have hi1 : i = 0 := by
        have : c3init.originalRecordings.length = 1 := rfl
        omega
      subst hi1
      rfl)
    (by simp [c3init])
    (by simp [c3init])⟩

/-! ## The EMG dataset entity (`EMGDataset.m_max`) -/

/-- The `ValueError(f"Error: No valid M-max values found for channel
{channel_index}.")` of `EMGDataset.m_max`, as a structured error carrying
the interpolated channel index. -/
inductive DatasetError where
  | noValidMmax (channel : ℕ) : DatasetError
deriving DecidableEq, Repr

/-- The state of `EMGDataset` the claims are about: the owned sessions and
the channel count taken from the first session at construction. -/
structure Dataset where
  numChannels : ℕ
  sessions : List Session
deriving DecidableEq

/-- The channel loop of `EMGDataset.m_max`, given the already collected
per-session `m_max` lists: per channel, the non-`None` session values are
collected (`[m[c] for m in session_m_maxes if m[c] is not None]`); an empty
collection raises, otherwise the unweighted `np.mean` is appended. -/
def datasetChannelMean (sessionMmaxes : List (List (Option ℚ))) (c : ℕ) :
    Except DatasetError ℚ :=
  if (sessionMmaxes.filterMap (fun l => l.getD c none)).isEmpty then
    .error (.noValidMmax c)
  else
    .ok (meanQ (sessionMmaxes.filterMap (fun l => l.getD c none)))

def datasetMmaxFrom (numChannels : ℕ) (sessionMmaxes : List (List (Option ℚ))) :
    Except DatasetError (List ℚ) :=
  (List.range numChannels).mapM (datasetChannelMean sessionMmaxes)

/-- The `m_max` property of `EMGDataset`: first
`session_m_maxes = [session.m_max for session in self.emg_sessions]` (a
session whose own property raises aborts the whole call, `inl`), then the
channel aggregation loop (`inr` for its `ValueError`). -/
def datasetMmax (butterFn : List ℚ → List ℚ) (sqrtFn : ℚ → ℚ) (d : Dataset) :
    Except (TransformError ⊕ DatasetError) (List ℚ) :=
  match d.sessions.mapM (fun sess => sessionMmax butterFn sqrtFn sess) with
  | .error e => .error (.inl e)
  | .ok lists =>
    match datasetMmaxFrom d.numChannels lists with
    | .error e => .error (.inr e)
    | .ok v => .ok v

/-! ## `Except`-monad `mapM` helpers -/

theorem mapM_ok_of_forall_ok {α β ε : Type} {l : List α} {f : α → Except ε β}
    (h : ∀ a ∈ l, ∃ b, f a = .ok b) :
    ∃ out : List β, l.mapM f = .ok out ∧ out.length = l.length ∧
      ∀ i (hi : i < l.length) (ho : i < out.length), f (l.get ⟨i, hi⟩) =
        .ok (out.get ⟨i, ho⟩) := by
  induction l with
  | nil => exact ⟨[], rfl, rfl, fun i hi => absurd hi (by simp)⟩
  | cons a l ih =>
    rcases h a (by simp) with ⟨b, hb⟩
    rcases ih (fun a ha => h a (by simp [ha])) with ⟨out, hout, hlen, hget⟩
    refine ⟨b :: out, ?_, by simp [hlen], ?_⟩
    · rw [List.mapM_cons, hb, hout]
      rfl
    · intro i hi ho
      cases i with
      | zero => simpa using hb
      | succ i => simpa using hget i (by simpa using hi) (by simpa using ho)

theorem forall_ok_of_mapM_ok {α β ε : Type} {l : List α} {f : α → Except ε β}
    {out : List β} (h : l.mapM f = .ok out) :
    ∀ a ∈ l, ∃ b, f a = .ok b := by
  induction l generalizing out with
  | nil => intro a ha; exact absurd ha (by simp)
  | cons x l ih =>
    rw [List.mapM_cons] at h
    rcases hx : f x with e | b
    · rw [hx] at h; exact absurd h (by simp [Bind.bind, Except.bind])
    · rw [hx] at h
      intro a ha
      rcases List.mem_cons.mp ha with rfl | ha2
      · exact ⟨b, hx⟩
      · rcases hrest : l.mapM f with e | out2
        · rw [hrest] at h
          exact absurd h (by simp [Bind.bind, Except.bind, Seq.seq, Functor.map])
        · exact ih hrest a ha2

theorem get_avg_mmax_error {xs y : List ℚ} {maxw minw : ℕ} {t : ℚ} {err : TransformError}
    (h : get_avg_mmax xs y maxw minw t = .error err) : err = .noCalculableMmax := by
  rw [get_avg_mmax] at h
  rcases hd : detect_plateau xs y maxw minw t with _ | p
  · rw [hd] at h
    injection h with h
    exact h.symm
  · rcases p with ⟨ps, pe⟩
    rw [hd] at h
    dsimp only at h
    split at h <;> exact absurd h (by simp)

theorem calculate_ok_of_valid (sqrtFn : ℚ → ℚ) (emg : List ℚ) (a b rate : ℚ)
    {method : String} (h : method ∈ validMethods) :
    ∃ v, calculate_emg_amplitude sqrtFn emg a b rate method = .ok v := by
  simp only [validMethods, List.mem_cons, List.not_mem_nil, or_false] at h
  rcases h with h | h | h | h <;> subst h <;> simp [calculate_emg_amplitude]

/-- C4: (session level) with a valid configured extraction method, the
`m_max` property returns one entry per channel; a channel whose
`get_avg_mmax` call fails (`NoCalculableMmaxError`) yields `None` while
every other channel yields its value.  (Dataset level) given the collected
per-session lists, the property returns per channel the unweighted mean of
the non-`None` session values, and the whole call fails with an error as
soon as some channel has zero non-`None` values. -/
theorem claim_C4 (butterFn : List ℚ → List ℚ) (sqrtFn : ℚ → ℚ) :
    (∀ s : Session, s.defaultMethod ∈ validMethods →
      ∃ L, sessionMmax butterFn sqrtFn s = .ok L ∧ L.length = s.numChannels ∧
        ∀ c, c < s.numChannels →
          ∃ amps, channelAmplitudes butterFn sqrtFn s c = .ok amps ∧
            ((get_avg_mmax (sessionStimulusVoltages butterFn s) amps s.maxWindowSize
                s.minWindowSize s.mmaxThreshold = .error .noCalculableMmax ∧
              L.getD c none = none) ∨
             (∃ m, get_avg_mmax (sessionStimulusVoltages butterFn s) amps s.maxWindowSize
                s.minWindowSize s.mmaxThreshold = .ok m ∧ L.getD c none = some m))) ∧
    (∀ (d : Dataset) (lists : List (List (Option ℚ))),
      d.sessions.mapM (fun sess => sessionMmax butterFn sqrtFn sess) = .ok lists →
      ((∀ c, c < d.numChannels → ∃ l ∈ lists, l.getD c none ≠ none) →
        ∃ M, datasetMmax butterFn sqrtFn d = .ok M ∧ M.length = d.numChannels ∧
          ∀ c, c < d.numChannels →
            M.getD c 0 = meanQ (lists.filterMap (fun l => l.getD c none))) ∧
      ((∃ c, c < d.numChannels ∧ ∀ l ∈ lists, l.getD c none = none) →
        ∃ e, datasetMmax butterFn sqrtFn d = .error (.inr e))) := by
  constructor
  · intro s hm
    have hamps : ∀ c : ℕ, ∃ amps, channelAmplitudes butterFn sqrtFn s c = .ok amps := by
      intro c
      rcases mapM_ok_of_forall_ok (l := recordingsProcessed butterFn s)
        (f := fun rec => calculate_emg_amplitude sqrtFn (rec.channel_data.getD c [])
          (s.mStart.getD c 0 + s.stimStart)
          (s.mStart.getD c 0 + s.stimStart + s.mDuration.getD c 0)
          s.scanRate s.defaultMethod)
        (fun rec _ => calculate_ok_of_valid sqrtFn _ _ _ _ hm) with ⟨amps, hampsEq, _, _⟩
      exact ⟨amps, hampsEq⟩
    have hchan : ∀ c ∈ List.range s.numChannels,
        ∃ oc, sessionChannelMmax butterFn sqrtFn s c = .ok oc := by
      intro c _
      rcases hamps c with ⟨amps, hampsEq⟩
      rw [sessionChannelMmax, hampsEq]
      rcases hg : get_avg_mmax (sessionStimulusVoltages butterFn s) amps s.maxWindowSize
          s.minWindowSize s.mmaxThreshold with e2 | m
      · exact ⟨none, by dsimp only; rw [hg]⟩
      · exact ⟨some m, by dsimp only; rw [hg]⟩
    rcases mapM_ok_of_forall_ok hchan with ⟨L, hL, hLlen, hLget⟩
    rw [List.length_range] at hLlen
    refine ⟨L, hL, hLlen, ?_⟩
    intro c hc
    rcases hamps c with ⟨amps, hampsEq⟩
    refine ⟨amps, hampsEq, ?_⟩
    have hcr : c < (List.range s.numChannels).length := by simpa using hc
    have hcl : c < L.length := by omega
    have hget := hLget c hcr hcl
    rw [List.get_eq_getElem, List.getElem_range] at hget
    have hgetD : L.getD c none = L.get ⟨c, hcl⟩ := by
      rw [List.getD_eq_getElem _ _ hcl, List.get_eq_getElem]
    rw [sessionChannelMmax, hampsEq] at hget
    rcases hg : get_avg_mmax (sessionStimulusVoltages butterFn s) amps s.maxWindowSize
        s.minWindowSize s.mmaxThreshold with e2 | m
    · left
      dsimp only at hget
      rw [hg] at hget
      dsimp only at hget
      injection hget with hget2
      refine ⟨by rw [get_avg_mmax_error hg], by rw [hgetD, ← hget2]⟩
    · right
      dsimp only at hget
      rw [hg] at hget
      dsimp only at hget
      injection hget with hget2
      exact ⟨m, rfl, by rw [hgetD, ← hget2]⟩
  · intro d lists hlists
    have hnonempty : ∀ c, (∃ l ∈ lists, l.getD c none ≠ none) →
        ¬ (lists.filterMap (fun l => l.getD c none)).isEmpty = true := by
      intro c hex
      rcases hex with ⟨l, hl, hlne⟩
      rcases ho : l.getD c none with _ | v
      · exact absurd ho hlne
      · have hmem : v ∈ lists.filterMap (fun l => l.getD c none) :=
          List.mem_filterMap.mpr ⟨l, hl, ho⟩
        intro hempty
        rw [List.isEmpty_iff] at hempty
        rw [hempty] at hmem
        exact absurd hmem (by simp)
    constructor
    · intro hsome
      have hch : ∀ c ∈ List.range d.numChannels,
          ∃ v, datasetChannelMean lists c = .ok v := by
        intro c hcr
        exact ⟨_, by rw [datasetChannelMean,
          if_neg (hnonempty c (hsome c (by simpa using hcr)))]⟩
      rcases mapM_ok_of_forall_ok hch with ⟨M, hM, hMlen, hMget⟩
      rw [List.length_range] at hMlen
      have hMfrom : datasetMmaxFrom d.numChannels lists = .ok M := hM
      refine ⟨M, ?_, hMlen, ?_⟩
      · rw [datasetMmax, hlists]
        dsimp only
        rw [hMfrom]
      · intro c hc
        have hcr : c < (List.range d.numChannels).length := by simpa using hc
        have hcl : c < M.length := by omega
        have hget := hMget c hcr hcl
        rw [List.get_eq_getElem, List.getElem_range] at hget
        rw [datasetChannelMean, if_neg (hnonempty c (hsome c hc))] at hget
        injection hget with hget
        rw [List.getD_eq_getElem M 0 hcl]
        rw [List.get_eq_getElem] at hget
        exact hget.symm
    · intro hfail
      rcases hfail with ⟨c, hc, hallnone⟩
      rcases hfrom : datasetMmaxFrom d.numChannels lists with e | M
      · exact ⟨e, by rw [datasetMmax, hlists]; dsimp only; rw [hfrom]⟩
      · exfalso
        have := forall_ok_of_mapM_ok hfrom c (by simpa using hc)
        rcases this with ⟨v, hv⟩
        have hempty : (lists.filterMap (fun l => l.getD c none)).isEmpty = true := by
          rw [List.isEmpty_iff, List.filterMap_eq_nil_iff]
          exact hallnone
        rw [datasetChannelMean, if_pos hempty] at hv
        exact absurd hv (by simp)

/-- Concrete two-channel session for the C4 witness: single-sample channels,
M-wave window = sample 0, so the channel-0 amplitude curve is `[5,5,5,5]`
(a perfect plateau) and the channel-1 curve is `[0,4,8,12]` (no plateau). -/
def c4session : Session :=
  { numChannels := 2, scanRate := 1000, stimStart := 0, mStart := [0, 0],
    mDuration := [1, 1], defaultMethod := "average_rectified", maxWindowSize := 2,
    minWindowSize := 2, mmaxThreshold := 1,
    recordingsRaw :=
      [{ recording_id := 0, stimulus_v := 1, channel_data := [[5], [0]] },
       { recording_id := 1, stimulus_v := 2, channel_data := [[5], [4]] },
       { recording_id := 2, stimulus_v := 3, channel_data := [[5], [8]] },
       { recording_id := 3, stimulus_v := 4, channel_data := [[5], [12]] }],
    originalRecordings :=
      [{ recording_id := 0, stimulus_v := 1, channel_data := [[5], [0]] },
       { recording_id := 1, stimulus_v := 2, channel_data := [[5], [4]] },
       { recording_id := 2, stimulus_v := 3, channel_data := [[5], [8]] },
       { recording_id := 3, stimulus_v := 4, channel_data := [[5], [12]] }],
    excludedRecordings := ∅ }

theorem c4ProcEval : recordingsProcessed id c4session = c4session.recordingsRaw := by
  simp [recordingsProcessed, c4session]

theorem c4Amp0Eval : channelAmplitudes id id c4session 0 = .ok [5, 5, 5, 5] := by
  rw [channelAmplitudes, c4ProcEval]
  norm_num [c4session, calculate_emg_amplitude, _calculate_average_amplitude_rectified,
    pySlice, pyInt, meanQ, List.mapM, List.mapM.loop, Bind.bind, Except.bind,
    pure, Except.pure]

theorem c4Amp1Eval : channelAmplitudes id id c4session 1 = .ok [0, 4, 8, 12] := by
  rw [channelAmplitudes, c4ProcEval]
  norm_num [c4session, calculate_emg_amplitude, _calculate_average_amplitude_rectified,
    pySlice, pyInt, meanQ, List.mapM, List.mapM.loop, Bind.bind, Except.bind,
    pure, Except.pure]

theorem c4Mmax0Eval : get_avg_mmax [1, 2, 3, 4] [5, 5, 5, 5] 2 2 1 = .ok 5 := by
  have hs : savgol_filter_y [5, 5, 5, 5] = [5, 5, 5, 5] :=
    savgol_filter_y_small _ (by simp) (by simp)
  have hdet : detect_plateau [1, 2, 3, 4] [5, 5, 5, 5] 2 2 1 = some (0, 3) := by
    rw [detect_plateau, detectPlateauGo, hs]
    norm_num [plateauScan, plateauStep, stdBelow, winSlice, varQ, meanQ, List.range_succ]
  rw [get_avg_mmax, hdet]
  norm_num [meanQ, maxD]

theorem c4Mmax1Eval : get_avg_mmax [1, 2, 3, 4] [0, 4, 8, 12] 2 2 1 =
    .error .noCalculableMmax := by
  have hs : savgol_filter_y [0, 4, 8, 12] = [0, 4, 8, 12] :=
    savgol_filter_y_small _ (by simp) (by simp)
  have hdet : detect_plateau [1, 2, 3, 4] [0, 4, 8, 12] 2 2 1 = none := by
    rw [detect_plateau, detectPlateauGo, hs]
    norm_num [plateauScan, plateauStep, stdBelow, winSlice, varQ, meanQ, List.range_succ]
  rw [get_avg_mmax, hdet]

theorem c4StimEval : sessionStimulusVoltages id c4session = [1, 2, 3, 4] := by
  rw [sessionStimulusVoltages, c4ProcEval]
  norm_num [c4session]

theorem c4SessionMmaxEval : sessionMmax id id c4session = .ok [some 5, none] := by
  have h0 : sessionChannelMmax id id c4session 0 = .ok (some 5) := by
    rw [sessionChannelMmax, c4Amp0Eval]
    dsimp only
    rw [c4StimEval]
    have hmw : c4session.maxWindowSize = 2 := rfl
    have hnw : c4session.minWindowSize = 2 := rfl
    have hth : c4session.mmaxThreshold = 1 := rfl
    rw [hmw, hnw, hth, c4Mmax0Eval]
  have h1 : sessionChannelMmax id id c4session 1 = .ok none := by
    rw [sessionChannelMmax, c4Amp1Eval]
    dsimp only
    rw [c4StimEval]
    have hmw : c4session.maxWindowSize = 2 := rfl
    have hnw : c4session.minWindowSize = 2 := rfl
    have hth : c4session.mmaxThreshold = 1 := rfl
    rw [hmw, hnw, hth, c4Mmax1Eval]
  have hnc : c4session.numChannels = 2 := rfl
  rw [sessionMmax, hnc]
  norm_num [List.mapM, List.mapM.loop, List.range_succ, h0, h1, Bind.bind, Except.bind,
    pure, Except.pure]

theorem c4ListsEval :
    ([c4session] : List Session).mapM (fun sess => sessionMmax id id sess) =
      .ok [[some 5, none]] := by
  norm_num [List.mapM, List.mapM.loop, c4SessionMmaxEval, Bind.bind, Except.bind,
    pure, Except.pure]

theorem claim_C4_witness :
    c4session.defaultMethod ∈ validMethods ∧
    (∃ L, sessionMmax id id c4session = .ok L ∧ L.length = c4session.numChannels ∧
      ∀ c, c < c4session.numChannels →
        ∃ amps, channelAmplitudes id id c4session c = .ok amps ∧
          ((get_avg_mmax (sessionStimulusVoltages id c4session) amps c4session.maxWindowSize
              c4session.minWindowSize c4session.mmaxThreshold = .error .noCalculableMmax ∧
            L.getD c none = none) ∨
           (∃ m, get_avg_mmax (sessionStimulusVoltages id c4session) amps
              c4session.maxWindowSize c4session.minWindowSize c4session.mmaxThreshold = .ok m ∧
            L.getD c none = some m))) ∧
    (∃ M, datasetMmax id id { numChannels := 1, sessions := [c4session] } = .ok M ∧
      M.length = 1 ∧ ∀ c, c < 1 →
        M.getD c 0 = meanQ (([[some 5, none]] : List (List (Option ℚ))).filterMap
          (fun l => l.getD c none))) ∧
    (∃ e, datasetMmax id id { numChannels := 2, sessions := [c4session] } =
      .error (.inr e)) := by
  have hmethod : c4session.defaultMethod ∈ validMethods := by
    simp [c4session, validMethods]
  refine ⟨hmethod, (claim_C4 id id).1 c4session hmethod, ?_, ?_⟩
  · exact ((claim_C4 id id).2 { numChannels := 1, sessions := [c4session] }
      [[some 5, none]] c4ListsEval).1
      (by
        intro c hc
        have hc0 : c = 0 := by
          have : ({ numChannels := 1, sessions := [c4session] } : Dataset).numChannels = 1 := rfl
          omega
        subst hc0
        exact ⟨[some 5, none], by simp, by simp⟩)
  · exact ((claim_C4 id id).2 { numChannels := 2, sessions := [c4session] }
      [[some 5, none]] c4ListsEval).2
      ⟨1, by show (1 : ℕ) < 2; omega,
        by intro l hl; rcases List.mem_singleton.mp hl with rfl; rfl⟩

/-! ## Claim C7 -/

/-- C7: an extraction method name outside the four supported ones makes
`calculate_emg_amplitude` fail with the `ValueError` carrying the offending
string and the full list of valid method names (in dictionary insertion
order, as joined into the message) - it never returns a value. -/
theorem claim_C7 (sqrtFn : ℚ → ℚ) (emg : List ℚ) (startMs endMs scanRate : ℚ)
    (method : String) (h : method ∉ validMethods) :
    calculate_emg_amplitude sqrtFn emg startMs endMs scanRate method =
      .error (.invalidMethod method validMethods) ∧
    ∀ v, calculate_emg_amplitude sqrtFn emg startMs endMs scanRate method ≠ .ok v := by
  simp only [validMethods, List.mem_cons, List.not_mem_nil, or_false, not_or] at h
  obtain ⟨h1, h2, h3, h4⟩ := h
  have heq : calculate_emg_amplitude sqrtFn emg startMs endMs scanRate method =
      .error (.invalidMethod method validMethods) := by
    rw [calculate_emg_amplitude, if_neg h1, if_neg h2, if_neg h3, if_neg h4]
  exact ⟨heq, fun v hv => by rw [heq] at hv; exact absurd hv (by simp)⟩

theorem claim_C7_witness :
    "foo" ∉ validMethods ∧
    calculate_emg_amplitude id [1, 2] 0 1 1000 "foo" =
      .error (.invalidMethod "foo" validMethods) :=
  ⟨by simp [validMethods], (claim_C7 id [1, 2] 0 1 1000 "foo" (by simp [validMethods])).1⟩

/-! ## Claim C8 (`_upgrade_from_version` of `EMGSession` and `EMGDataset`) -/

/-- Schema versions compared with `packaging.version.parse`; the versions in
play are plain `major.minor.patch` triples, compared lexicographically. -/
structure SchemaVersion where
  major : ℕ
  minor : ℕ
  patch : ℕ
deriving DecidableEq, Repr

def versionLt (a b : SchemaVersion) : Bool :=
  if a.major ≠ b.major then decide (a.major < b.major)
  else if a.minor ≠ b.minor then decide (a.minor < b.minor)
  else decide (a.patch < b.patch)

/-- The threshold version of the migration guard: `parse_version("1.6.0")`. -/
def schemaV160 : SchemaVersion := { major := 1, minor := 6, patch := 0 }

/-- The two `ValueError`s of the migration guard, as structured errors:
`tooOldNamed n` stands for the message `Dataset {n} is too old to upgrade.
Delete the bin file and re-import the data.` with the entity name
interpolated, `tooOldGeneric` for the same message with the fixed generic
prefix `Dataset version` naming no entity. -/
inductive MigrationError where
  | tooOldNamed (formattedName : String) : MigrationError
  | tooOldGeneric : MigrationError
deriving DecidableEq, Repr

/-- The guard at the head of both `EMGSession._upgrade_from_version` and
`EMGDataset._upgrade_from_version` (the two are textually identical): for a
stored version below 1.6.0, a state without the `latency_windows` attribute
is un-upgradable - a fatal `ValueError` naming the entity via
`formatted_name` when that attribute exists and generic otherwise.  `ok ()`
stands for "the guard passed and migration proceeds". -/
def upgradeGuard (oldVersion : SchemaVersion) (hasLatencyWindows : Bool)
    (formattedName : Option String) : Except MigrationError Unit :=
  if versionLt oldVersion schemaV160 then
    if !hasLatencyWindows then
      match formattedName with
      | some n => .error (.tooOldNamed n)
      | none => .error .tooOldGeneric
    else .ok ()
  else .ok ()

/-- C8: below schema 1.6.0 and lacking `latency_windows`, migration fails;
the error is the generic one when `formatted_name` is absent, and carries
the `formatted_name` value when present. -/
theorem claim_C8 (v : SchemaVersion) (h : versionLt v schemaV160 = true) :
    (∀ n, upgradeGuard v false (some n) = .error (.tooOldNamed n)) ∧
    upgradeGuard v false none = .error .tooOldGeneric := by
  constructor
  · intro n
    rw [upgradeGuard, if_pos h]
    rfl
  · rw [upgradeGuard, if_pos h]
    rfl

theorem claim_C8_witness :
    versionLt { major := 1, minor := 5, patch := 0 } schemaV160 = true ∧
    upgradeGuard { major := 1, minor := 5, patch := 0 } false (some "X") =
      .error (.tooOldNamed "X") ∧
    upgradeGuard { major := 1, minor := 5, patch := 0 } false none =
      .error .tooOldGeneric :=
  ⟨by decide,
   (claim_C8 { major := 1, minor := 5, patch := 0 } (by decide)).1 "X",
   (claim_C8 { major := 1, minor := 5, patch := 0 } (by decide)).2⟩

/-! ## Claim C9 (`EMGData.parse_date` and `EMGDataset.getDatasetInfo`)

`datetime.strptime` on an all-digit string of the exact format length forces
fixed field widths (2-2-2 for the six-digit formats, with `%Y` exactly four
digits for the eight-digit ones); a parse succeeds exactly when the fields
form a valid proleptic-Gregorian calendar date (year 1-9999).  `%y` maps
00-68 to 2000-2068 and 69-99 to 1969-1999. -/

def expandTwoDigitYear (y : ℕ) : ℕ := if y ≤ 68 then 2000 + y else 1900 + y

def isLeapYear (y : ℕ) : Bool :=
  (decide (y % 4 = 0) && decide (y % 100 ≠ 0)) || decide (y % 400 = 0)

def daysInMonth (y m : ℕ) : ℕ :=
  if m = 2 then (if isLeapYear y then 29 else 28)
  else if m = 4 ∨ m = 6 ∨ m = 9 ∨ m = 11 then 30
  else 31

def isValidDate (y m d : ℕ) : Bool :=
  decide (1 ≤ y) && decide (y ≤ 9999) && decide (1 ≤ m) && decide (m ≤ 12) &&
    decide (1 ≤ d) && decide (d ≤ daysInMonth y m)

/-- The digits of an all-digit string (`None` when any character is not a
digit, in which case every `strptime` format fails). -/
def digitsOf (s : String) : Option (List ℕ) :=
  if s.data.all Char.isDigit then some (s.data.map (fun c => c.toNat - 48)) else none

/-- The `(year, month, day, format_name)` candidates of `parse_date`, in the
priority order of the `formats` list: `YYMMDD`/`DDMMYY`/`MMDDYY` for
six-digit strings, `YYYYMMDD`/`DDMMYYYY`/`MMDDYYYY` for eight-digit ones,
keeping those that parse to a valid calendar date. -/
def dateCandidates (s : String) : List (ℕ × ℕ × ℕ × String) :=
  match digitsOf s with
  | none => []
  | some ds =>
    match ds with
    | [a, b, c, d, e, f] =>
      [(expandTwoDigitYear (10 * a + b), 10 * c + d, 10 * e + f, "YYMMDD"),
       (expandTwoDigitYear (10 * e + f), 10 * c + d, 10 * a + b, "DDMMYY"),
       (expandTwoDigitYear (10 * e + f), 10 * a + b, 10 * c + d, "MMDDYY")].filter
        (fun q => isValidDate q.1 q.2.1 q.2.2.1)
    | [a, b, c, d, e, f, g, h] =>
      [(1000 * a + 100 * b + 10 * c + d, 10 * e + f, 10 * g + h, "YYYYMMDD"),
       (1000 * e + 100 * f + 10 * g + h, 10 * c + d, 10 * a + b, "DDMMYYYY"),
       (1000 * e + 100 * f + 10 * g + h, 10 * a + b, 10 * c + d, "MMDDYYYY")].filter
        (fun q => isValidDate q.1 q.2.1 q.2.2.1)
    | _ => []

inductive DateParseError where
  | invalidLength (dateString : String) : DateParseError
  | noValidFormat (dateString : String) : DateParseError
deriving DecidableEq, Repr

/-- The outcome of `EMGData.parse_date`.  The function returns
`(parsed_date, format_name)` on success and `(None, message)` on failure;
the branch that logs the multiple-valid-formats warning and falls back to
the first valid format is marked by the `okAmbiguous` constructor, which
also carries the list of valid format names the warning reports.  The
error constructors carry the offending date string, which both failure
messages interpolate. -/
inductive DateParseResult where
  | ok (year month day : ℕ) (formatName : String) : DateParseResult
  | okAmbiguous (year month day : ℕ) (formatName : String)
      (validNames : List String) : DateParseResult
  | error (e : DateParseError) : DateParseResult
deriving DecidableEq, Repr

/-- `EMGData.parse_date(date_string, preferred_format)`. -/
def parse_date (dateString : String) (preferredFormat : Option String) : DateParseResult :=
  if dateString.length = 6 ∨ dateString.length = 8 then
    match dateCandidates dateString with
    | [] => .error (.noValidFormat dateString)
    | [c] => .ok c.1 c.2.1 c.2.2.1 c.2.2.2
    | c :: c2 :: rest =>
      match preferredFormat with
      | some p =>
        match (c :: c2 :: rest).find? (fun q => q.2.2.2 = p) with
        | some cp => .ok cp.1 cp.2.1 cp.2.2.1 cp.2.2.2
        | none => .okAmbiguous c.1 c.2.1 c.2.2.1 c.2.2.2
            ((c :: c2 :: rest).map (fun q => q.2.2.2))
      | none => .okAmbiguous c.1 c.2.1 c.2.2.1 c.2.2.2
          ((c :: c2 :: rest).map (fun q => q.2.2.2))
  else .error (.invalidLength dateString)

/-- `parsed_date.strftime("%Y-%m-%d")`: zero-padded ISO formatting. -/
def fourDigits (n : ℕ) : String :=
  String.mk [Nat.digitChar (n / 1000 % 10), Nat.digitChar (n / 100 % 10),
    Nat.digitChar (n / 10 % 10), Nat.digitChar (n % 10)]

def twoDigits (n : ℕ) : String :=
  String.mk [Nat.digitChar (n / 10 % 10), Nat.digitChar (n % 10)]

def formatDateISO (y m d : ℕ) : String :=
  fourDigits y ++ "-" ++ twoDigits m ++ "-" ++ twoDigits d

inductive DatasetNameError where
  | badPattern (datasetName : String) : DatasetNameError
  | dateError (e : DateParseError) : DatasetNameError
deriving DecidableEq, Repr

/-- Split a character list at every space (each space separates groups, as
the single `\s` occurrences in the regex do). -/
def splitOnSpace : List Char → List (List Char)
  | [] => [[]]
  | c :: rest =>
    match splitOnSpace rest with
    | [] => [[]]
    | grp :: rs => if c = ' ' then [] :: grp :: rs else (c :: grp) :: rs

/-- Re-join the remainder groups with spaces (the `(.+)$` tail group). -/
def joinWithSpace : List (List Char) → List Char
  | [] => []
  | [g] => g
  | g :: gs => g ++ ' ' :: joinWithSpace gs

/-- The regex `^(\d{6,8})\s([A-Z0-9.]+)\s(.+)$` of `getDatasetInfo`, for
space-separated names (`\s` modelled as the space character): the first
field is 6-8 digits, the second nonempty over `[A-Z0-9.]`, the remainder
nonempty. -/
def datasetNameFields (datasetName : String) : Option (String × String × String) :=
  match splitOnSpace datasetName.data with
  | dateCs :: animalCs :: rest =>
    if (decide (6 ≤ dateCs.length) && decide (dateCs.length ≤ 8) &&
        dateCs.all Char.isDigit &&
        decide (1 ≤ animalCs.length) &&
        animalCs.all (fun c => (decide ('A' ≤ c) && decide (c ≤ 'Z')) ||
          c.isDigit || decide (c = '.')) &&
        !rest.isEmpty && !(joinWithSpace rest).isEmpty) then
      some (String.mk dateCs, String.mk animalCs, String.mk (joinWithSpace rest))
    else none
  | _ => none

/-- `EMGDataset.getDatasetInfo(dataset_name, preferred_date_format)`: match
the naming pattern, parse the date field, and return
`(date.strftime("%Y-%m-%d"), animal_id, condition)`; a date-parse failure is
re-raised as `ValueError(f"Error: {format_info}")` carrying the parse
error's message, a pattern mismatch as the `does not match the expected
format` `ValueError`. -/
def getDatasetInfo (datasetName : String) (preferredFormat : Option String) :
    Except DatasetNameError (String × String × String) :=
  match datasetNameFields datasetName with
  | none => .error (.badPattern datasetName)
  | some (dateStr, animalId, condition) =>
    match parse_date dateStr preferredFormat with
    | .ok y m d _ => .ok (formatDateISO y m d, animalId, condition)
    | .okAmbiguous y m d _ _ => .ok (formatDateISO y m d, animalId, condition)
    | .error e => .error (.dateError e)

/-- C9: `"240404 M123 Control"` parses to
`(date="2024-04-04", animal_id="M123", condition="Control")` (the date field
is ambiguous between YYMMDD and DDMMYY and resolves to the first);
`"99999999 A1 X"` fails with the error naming the invalid date string; the
candidate formats are generated in the priority order YYMMDD/DDMMYY/MMDDYY
(six digits) resp. YYYYMMDD/DDMMYYYY/MMDDYYYY (eight digits); and whenever
several formats are valid and no preferred format is given, the first
candidate is chosen and the ambiguity is reported (the warning branch,
carrying all valid format names). -/
theorem claim_C9 :
    getDatasetInfo "240404 M123 Control" none =
      .ok ("2024-04-04", "M123", "Control") ∧
    getDatasetInfo "99999999 A1 X" none =
      .error (.dateError (.noValidFormat "99999999")) ∧
    (∀ s : String, s.length = 6 →
      ((dateCandidates s).map (fun q => q.2.2.2)).Sublist ["YYMMDD", "DDMMYY", "MMDDYY"]) ∧
    (∀ s : String, s.length = 8 →
      ((dateCandidates s).map (fun q => q.2.2.2)).Sublist
        ["YYYYMMDD", "DDMMYYYY", "MMDDYYYY"]) ∧
    (∀ (s : String) c c2 rest, dateCandidates s = c :: c2 :: rest →
      (s.length = 6 ∨ s.length = 8) →
      parse_date s none = .okAmbiguous c.1 c.2.1 c.2.2.1 c.2.2.2
        ((c :: c2 :: rest).map (fun q => q.2.2.2))) := by
  refine ⟨rfl, rfl, ?_, ?_, ?_⟩
  · intro s hlen
    rcases hd : digitsOf s with _ | ds
    · rw [dateCandidates, hd]
      exact List.nil_sublist _
    · have hdslen : ds.length = 6 := by
        rw [digitsOf] at hd
        split at hd
        · injection hd with hd
          rw [← hd, List.length_map]
          exact hlen
        · exact absurd hd (by simp)
      rw [dateCandidates, hd]
      match ds, hdslen with
      | [a, b, c, d, e, f], _ =>
        dsimp only
        refine List.Sublist.trans (List.Sublist.map _ (List.filter_sublist _)) ?_
        simp
  · intro s hlen
    rcases hd : digitsOf s with _ | ds
    · rw [dateCandidates, hd]
      exact List.nil_sublist _
    · have hdslen : ds.length = 8 := by
        rw [digitsOf] at hd
        split at hd
        · injection hd with hd
          rw [← hd, List.length_map]
          exact hlen
        · exact absurd hd (by simp)
      rw [dateCandidates, hd]
      match ds, hdslen with
      | [a, b, c, d, e, f, g, h], _ =>
        dsimp only
        refine List.Sublist.trans (List.Sublist.map _ (List.filter_sublist _)) ?_
        simp
  · intro s c c2 rest hcand hlen
    rw [parse_date, if_pos hlen, hcand]

theorem claim_C9_witness :
    dateCandidates "010203" =
      [(2001, 2, 3, "YYMMDD"), (2003, 2, 1, "DDMMYY"), (2003, 1, 2, "MMDDYY")] ∧
    ("010203" : String).length = 6 ∧
    parse_date "010203" none =
      .okAmbiguous 2001 2 3 "YYMMDD" ["YYMMDD", "DDMMYY", "MMDDYY"] :=
  ⟨rfl, rfl, by
    have h := claim_C9.2.2.2.2 "010203" (2001, 2, 3, "YYMMDD") (2003, 2, 1, "DDMMYY")
      [(2003, 1, 2, "MMDDYY")] rfl (Or.inl rfl)
    simpa using h⟩
